import Mathlib

/-!
Verification development for the Graph_DB repository: a Java structural
graph extractor (app/services/java_parser.py, semantic_java_parser.py),
a Neo4j graph writer (app/services/graph_builder.py), and a cross-repo
alignment/diff engine (app/services/superimpose_service.py).

The Neo4j database is modelled as lists of property records (one list per
node label / relationship type).  Each Cypher statement of the source is
translated into a pure function on that state, preserving MERGE/SET/DELETE
semantics and execution order.  Node properties that may be absent (null)
are Option-valued; Cypher coalesce(x, zero) becomes Option.getD.
-/

namespace Str

/-!
Executable character-list implementations of the Python string
primitives the source uses (str.endswith, str.split, str.strip, slicing).
The standard String versions go through Substring byte positions and do
not reduce inside the kernel, so claims could not be settled on concrete
inputs with them.
-/

/-- Boolean list-prefix test (structural, kernel-reducible). -/
def listLeads : List Char → List Char → Bool
  | [], _ => true
  | _ :: _, [] => false
  | p :: ps, s :: ss => p = s && listLeads ps ss

/-- Python s.endswith(post). -/
def strEndsWith (s post : String) : Bool :=
  listLeads post.data.reverse s.data.reverse

/-- Python s.split(sep) for a one-character separator: adjacent
separators yield empty components, and "".split(sep) == [""]. -/
def splitOnChar (sep : Char) : List Char → List (List Char)
  | [] => [[]]
  | c :: rest =>
    let r := splitOnChar sep rest
    if c = sep then [] :: r
    else
      match r with
      | [] => [[c]]
      | h :: t => (c :: h) :: t

/-- Python s.split(".")[-1]. -/
def lastDotComponent (s : String) : String :=
  ((splitOnChar '.' s.data).getLastD []).asString

/-- Python str.isspace characters stripped by str.strip(). -/
def isPySpace (c : Char) : Bool :=
  c = ' ' || c = '\t' || c = '\n' || c = '\r' || c = '\x0b' || c = '\x0c'

/-- Python s.strip(). -/
def strTrim (s : String) : String :=
  (((s.data.dropWhile isPySpace).reverse.dropWhile isPySpace).reverse).asString

/-- Python s[:n]. -/
def strTake (s : String) (n : Nat) : String :=
  (s.data.take n).asString

end Str

namespace GraphDb

open Str

/-- Diff status values written by superimpose_and_diff. -/
inductive Status where
  | UNCHANGED
  | CHANGED
  | ADDED
  | REMOVED
deriving DecidableEq, Repr

/-- DiffMarker kind values: 'Type', 'Method', 'Field'. -/
inductive Kind where
  | type
  | method
  | field
deriving DecidableEq, Repr

/-- A Type node as written by GraphBuilder._upsert_types:
key (project_name, repo_id, fqn), plus name, file, file_hash. -/
structure TypeNode where
  project_name : String
  repo_id : String
  fqn : String
  name : String := ""
  file : Option String := none
  file_hash : Option String := none
deriving DecidableEq, Repr

/-- A Method node.  GraphBuilder._upsert_methods stores name, file,
returnType, param_types, param_names, beginLine, endLine, body_hash on the
key (project_name, repo_id, owner_fqn, signature).  The diff engine also
reads the properties `params` and `modifiers` (as toString(l.params) and
toString(l.modifiers)); they are kept here as the stored string rendering,
Option-valued since no writer in the repository ever sets them. -/
structure MethodNode where
  project_name : String
  repo_id : String
  owner_fqn : String
  signature : String
  name : String := ""
  file : Option String := none
  returnType : Option String := none
  param_types : List String := []
  param_names : List String := []
  params : Option String := none
  modifiers : Option String := none
  beginLine : Option Int := none
  endLine : Option Int := none
  body_hash : Option String := none
deriving DecidableEq, Repr

/-- A Field node as written by GraphBuilder._upsert_fields: key
(project_name, repo_id, owner_fqn, name) and the property `type`.
The diff engine also reads toString(l.modifiers), never written. -/
structure FieldNode where
  project_name : String
  repo_id : String
  owner_fqn : String
  name : String
  type : Option String := none
  modifiers : Option String := none
deriving DecidableEq, Repr

/-- A Project node (MERGE (pr:Project {project_name, repo_id})). -/
structure ProjectNode where
  project_name : String
  repo_id : String
  name : String := ""
deriving DecidableEq, Repr

/-- Cypher coalesce(x, '') over a possibly-null string property. -/
def coalesce (o : Option String) : String := o.getD ""

/-- A DiffMarker node: MERGE key (supergraph_id, kind, key); SET writes
status and fqn; patch attachment may later SET diff. -/
structure Marker where
  supergraph_id : String
  kind : Kind
  key : String
  status : Status
  fqn : String := ""
  diff : Option String := none
deriving DecidableEq, Repr

/-- An alignment relationship (SAME_FQN / SAME_SIGNATURE / SAME_FIELD)
carrying a supergraph_id property, between two nodes of the same label.
Endpoints are recorded by their full property record (node keys are unique
by constraint, so the record identifies the node). -/
structure GEdge (N : Type) where
  supergraph_id : String
  src : N
  dst : N
deriving DecidableEq, Repr

/-- Reference to a DiffMarker node by its MERGE key. -/
structure MarkerRef where
  supergraph_id : String
  kind : Kind
  key : String
deriving DecidableEq, Repr

/-- A DIFF relationship from an entity node to a DiffMarker, carrying a
supergraph_id property. -/
structure DEdge (N : Type) where
  supergraph_id : String
  src : N
  dst : MarkerRef
deriving DecidableEq, Repr

/-- A structural relationship written by GraphBuilder (HAS_CLASS,
HAS_METHOD, DEPENDS_ON, EXTENDS, IMPLEMENTS, CALLS): no supergraph_id. -/
structure StructRel where
  relType : String
  src : String
  dst : String
deriving DecidableEq, Repr

/-- The Neo4j state touched by the superimpose service. -/
structure DB where
  projects : List ProjectNode := []
  types : List TypeNode := []
  methods : List MethodNode := []
  fields : List FieldNode := []
  structRels : List StructRel := []
  sameFqn : List (GEdge TypeNode) := []
  sameSignature : List (GEdge MethodNode) := []
  sameField : List (GEdge FieldNode) := []
  typeDiff : List (DEdge TypeNode) := []
  methodDiff : List (DEdge MethodNode) := []
  fieldDiff : List (DEdge FieldNode) := []
  markers : List Marker := []
deriving DecidableEq, Repr

/-- SuperimposeService.delete_supergraph: deletes the SAME_FQN,
SAME_SIGNATURE, SAME_FIELD and DIFF relationships whose supergraph_id
property equals sid, then DETACH DELETEs the DiffMarker nodes with that
supergraph_id (DETACH also removes any remaining relationship attached to
a deleted marker, i.e. DIFF edges whose target marker has that sid). -/
def delete_supergraph (sid : String) (db : DB) : DB :=
  { db with
    sameFqn := db.sameFqn.filter fun e => ¬ e.supergraph_id = sid
    sameSignature := db.sameSignature.filter fun e => ¬ e.supergraph_id = sid
    sameField := db.sameField.filter fun e => ¬ e.supergraph_id = sid
    typeDiff := db.typeDiff.filter fun e =>
      ¬ e.supergraph_id = sid ∧ ¬ e.dst.supergraph_id = sid
    methodDiff := db.methodDiff.filter fun e =>
      ¬ e.supergraph_id = sid ∧ ¬ e.dst.supergraph_id = sid
    fieldDiff := db.fieldDiff.filter fun e =>
      ¬ e.supergraph_id = sid ∧ ¬ e.dst.supergraph_id = sid
    markers := db.markers.filter fun m => ¬ m.supergraph_id = sid }

/-- Per-kind parameters of the alignment/diff blocks of
superimpose_and_diff.  The three Cypher blocks (Types / Methods / Fields)
are textually identical up to: the node label, the alignment key used in
the MATCH, the marker key string, and the fingerprint compared in the
CASE WHEN.  Each block is the generic function below instantiated with
the corresponding record. -/
structure AlignSpec (N : Type) (K : Type) where
  project : N → String
  repo : N → String
  akey : N → K
  mkey : N → String
  same : N → N → Prop

/-- Step 1/2/3 alignment parameters for Types: MATCH by fqn; CASE WHEN
coalesce(l.file_hash,'') = coalesce(r.file_hash,''). -/
def typeSpec : AlignSpec TypeNode String where
  project := TypeNode.project_name
  repo := TypeNode.repo_id
  akey := TypeNode.fqn
  mkey := TypeNode.fqn
  same l r := coalesce l.file_hash = coalesce r.file_hash

/-- Alignment parameters for Methods: MATCH by (owner_fqn, signature);
key owner_fqn + '::' + signature; CASE WHEN compares coalesced
returnType, toString(params), toString(modifiers), body_hash. -/
def methodSpec : AlignSpec MethodNode (String × String) where
  project := MethodNode.project_name
  repo := MethodNode.repo_id
  akey m := (m.owner_fqn, m.signature)
  mkey m := m.owner_fqn ++ "::" ++ m.signature
  same l r :=
    coalesce l.returnType = coalesce r.returnType ∧
    coalesce l.params = coalesce r.params ∧
    coalesce l.modifiers = coalesce r.modifiers ∧
    coalesce l.body_hash = coalesce r.body_hash

/-- Alignment parameters for Fields: MATCH by (owner_fqn, name);
key owner_fqn + '::' + name; CASE WHEN compares coalesced type and
toString(modifiers). -/
def fieldSpec : AlignSpec FieldNode (String × String) where
  project := FieldNode.project_name
  repo := FieldNode.repo_id
  akey f := (f.owner_fqn, f.name)
  mkey f := f.owner_fqn ++ "::" ++ f.name
  same l r :=
    coalesce l.type = coalesce r.type ∧
    coalesce l.modifiers = coalesce r.modifiers

instance (l r : TypeNode) : Decidable (typeSpec.same l r) := by
  unfold typeSpec; exact inferInstanceAs (Decidable (_ = _))

instance (l r : MethodNode) : Decidable (methodSpec.same l r) := by
  unfold methodSpec; exact instDecidableAnd

instance (l r : FieldNode) : Decidable (fieldSpec.same l r) := by
  unfold fieldSpec; exact instDecidableAnd

variable {N K : Type}

/-- MERGE of an alignment relationship between two bound nodes: created
only when the identical relationship is not already present. -/
def mergeGEdge [DecidableEq N] (es : List (GEdge N)) (e : GEdge N) : List (GEdge N) :=
  if e ∈ es then es else es ++ [e]

/-- MERGE of a DIFF relationship from a bound node to a bound marker. -/
def mergeDEdge [DecidableEq N] (es : List (DEdge N)) (e : DEdge N) : List (DEdge N) :=
  if e ∈ es then es else es ++ [e]

/-- MERGE (d:DiffMarker {supergraph_id, kind, key}) followed by
SET d.status = status, d.fqn = key: updates the matching marker when it
exists, otherwise creates it (with no diff property). -/
def mergeMarker (ms : List Marker) (sid : String) (k : Kind) (key : String)
    (st : Status) : List Marker :=
  if ms.any fun m => m.supergraph_id = sid ∧ m.kind = k ∧ m.key = key then
    ms.map fun m =>
      if m.supergraph_id = sid ∧ m.kind = k ∧ m.key = key then
        { m with status := st, fqn := key }
      else m
  else
    ms ++ [{ supergraph_id := sid, kind := k, key := key, status := st, fqn := key }]

/-- The left-side node set of a block: MATCH (l:L {project_name:$p, repo_id:$l}). -/
def sideNodes (S : AlignSpec N K) (p repo : String) (nodes : List N) : List N :=
  nodes.filter fun n => S.project n = p ∧ S.repo n = repo

/-- Steps 1-3 of superimpose_and_diff: for every pair of a left node and a
right node with equal alignment key, MERGE an alignment edge carrying the
supergraph_id. -/
def alignPairs [DecidableEq K] (S : AlignSpec N K) (p lrepo rrepo : String)
    (nodes : List N) : List (N × N) :=
  (sideNodes S p lrepo nodes).flatMap fun l =>
    ((sideNodes S p rrepo nodes).filter fun r => S.akey r = S.akey l).map fun r => (l, r)

def alignStage [DecidableEq N] [DecidableEq K] (S : AlignSpec N K)
    (p lrepo rrepo sid : String) (nodes : List N) (es : List (GEdge N)) :
    List (GEdge N) :=
  (alignPairs S p lrepo rrepo nodes).foldl
    (fun es pr => mergeGEdge es ⟨sid, pr.1, pr.2⟩) es

/-- The rows of the matched-pair marker statement (step 4/5/6, first
query): MATCH (l {p, lrepo})-[:SAME_* {sid}]->(r {p, rrepo}). -/
def matchedRows (S : AlignSpec N K) (p lrepo rrepo sid : String)
    (es : List (GEdge N)) : List (N × N) :=
  es.filterMap fun e =>
    if e.supergraph_id = sid ∧ S.project e.src = p ∧ S.repo e.src = lrepo ∧
       S.project e.dst = p ∧ S.repo e.dst = rrepo then
      some (e.src, e.dst)
    else none

/-- Left nodes with no sid-alignment edge into the right repo (step
4/5/6, second query: WHERE NOT EXISTS { (l)-[:SAME_* {sid}]->(:L {p, rrepo}) }). -/
def removedRows [DecidableEq N] (S : AlignSpec N K) (p lrepo rrepo sid : String)
    (nodes : List N) (es : List (GEdge N)) : List N :=
  (sideNodes S p lrepo nodes).filter fun l =>
    ¬ es.any fun e =>
      e.supergraph_id = sid ∧ e.src = l ∧
      S.project e.dst = p ∧ S.repo e.dst = rrepo

/-- Right nodes with no sid-alignment edge from a matching left node
(step 4/5/6, third query: WHERE NOT EXISTS
{ (:L {p, lrepo, key...r.key})-[:SAME_* {sid}]->(r) }). -/
def addedRows [DecidableEq N] [DecidableEq K] (S : AlignSpec N K)
    (p lrepo rrepo sid : String) (nodes : List N) (es : List (GEdge N)) : List N :=
  (sideNodes S p rrepo nodes).filter fun r =>
    ¬ es.any fun e =>
      e.supergraph_id = sid ∧ e.dst = r ∧
      S.project e.src = p ∧ S.repo e.src = lrepo ∧ S.akey e.src = S.akey r

/-- Marker writes of one kind block (the markers are MERGEd row by row;
the DIFF-edge MERGEs of the same rows touch a different store and are
modelled by the separate function below). -/
def markStage [DecidableEq N] [DecidableEq K] (S : AlignSpec N K)
    [∀ l r : N, Decidable (S.same l r)]
    (p lrepo rrepo sid : String) (k : Kind) (nodes : List N)
    (es : List (GEdge N)) (ms : List Marker) : List Marker :=
  let ms1 := (matchedRows S p lrepo rrepo sid es).foldl
    (fun ms pr =>
      mergeMarker ms sid k (S.mkey pr.1)
        (if S.same pr.1 pr.2 then Status.UNCHANGED else Status.CHANGED)) ms
  let ms2 := (removedRows S p lrepo rrepo sid nodes es).foldl
    (fun ms l => mergeMarker ms sid k (S.mkey l) Status.REMOVED) ms1
  (addedRows S p lrepo rrepo sid nodes es).foldl
    (fun ms r => mergeMarker ms sid k (S.mkey r) Status.ADDED) ms2

/-- DIFF-edge writes of one kind block: matched rows MERGE an edge from
both endpoints to the marker, removed/added rows from the single node. -/
def diffEdgeStage [DecidableEq N] [DecidableEq K] (S : AlignSpec N K)
    (p lrepo rrepo sid : String) (k : Kind) (nodes : List N)
    (es : List (GEdge N)) (ds : List (DEdge N)) : List (DEdge N) :=
  let ds1 := (matchedRows S p lrepo rrepo sid es).foldl
    (fun ds pr =>
      mergeDEdge (mergeDEdge ds ⟨sid, pr.1, ⟨sid, k, S.mkey pr.1⟩⟩)
        ⟨sid, pr.2, ⟨sid, k, S.mkey pr.1⟩⟩) ds
  let ds2 := (removedRows S p lrepo rrepo sid nodes es).foldl
    (fun ds l => mergeDEdge ds ⟨sid, l, ⟨sid, k, S.mkey l⟩⟩) ds1
  (addedRows S p lrepo rrepo sid nodes es).foldl
    (fun ds r => mergeDEdge ds ⟨sid, r, ⟨sid, k, S.mkey r⟩⟩) ds2

/-- SuperimposeService.superimpose_and_diff without patch attachment
(left_root/right_root omitted, as in the CLI flow): steps 1-3 MERGE the
alignment edges, steps 4-6 MERGE DiffMarkers and DIFF edges per kind. -/
def superimpose_and_diff (p lrepo rrepo sid : String) (db : DB) : DB :=
  let sf := alignStage typeSpec p lrepo rrepo sid db.types db.sameFqn
  let ss := alignStage methodSpec p lrepo rrepo sid db.methods db.sameSignature
  let sfd := alignStage fieldSpec p lrepo rrepo sid db.fields db.sameField
  let ms1 := markStage typeSpec p lrepo rrepo sid Kind.type db.types sf db.markers
  let td := diffEdgeStage typeSpec p lrepo rrepo sid Kind.type db.types sf db.typeDiff
  let ms2 := markStage methodSpec p lrepo rrepo sid Kind.method db.methods ss ms1
  let md := diffEdgeStage methodSpec p lrepo rrepo sid Kind.method db.methods ss db.methodDiff
  let ms3 := markStage fieldSpec p lrepo rrepo sid Kind.field db.fields sfd ms2
  let fd := diffEdgeStage fieldSpec p lrepo rrepo sid Kind.field db.fields sfd db.fieldDiff
  { db with
    sameFqn := sf, sameSignature := ss, sameField := sfd,
    typeDiff := td, methodDiff := md, fieldDiff := fd,
    markers := ms3 }

/-- The cli.py diff flow: s.delete_supergraph(sid) followed by
s.superimpose_and_diff(p, l, r, sid) (no roots, hence no patch pass). -/
def run_diff (p lrepo rrepo sid : String) (db : DB) : DB :=
  superimpose_and_diff p lrepo rrepo sid (delete_supergraph sid db)

/-- Frame statement for delete_supergraph: every node list (Project,
Type, Method, Field), every structural relationship, and the alignment
edges, DIFF edges and markers of every other supergraph_id are left
unchanged; exactly the sid-tagged alignment edges, DIFF edges and
markers are removed. -/
def DeleteFrame (sid : String) (db : DB) : Prop :=
  (delete_supergraph sid db).projects = db.projects ∧
  (delete_supergraph sid db).types = db.types ∧
  (delete_supergraph sid db).methods = db.methods ∧
  (delete_supergraph sid db).fields = db.fields ∧
  (delete_supergraph sid db).structRels = db.structRels ∧
  (delete_supergraph sid db).sameFqn =
    db.sameFqn.filter (fun e => ¬ e.supergraph_id = sid) ∧
  (delete_supergraph sid db).sameSignature =
    db.sameSignature.filter (fun e => ¬ e.supergraph_id = sid) ∧
  (delete_supergraph sid db).sameField =
    db.sameField.filter (fun e => ¬ e.supergraph_id = sid) ∧
  (delete_supergraph sid db).typeDiff =
    db.typeDiff.filter (fun e => ¬ e.supergraph_id = sid) ∧
  (delete_supergraph sid db).methodDiff =
    db.methodDiff.filter (fun e => ¬ e.supergraph_id = sid) ∧
  (delete_supergraph sid db).fieldDiff =
    db.fieldDiff.filter (fun e => ¬ e.supergraph_id = sid) ∧
  (delete_supergraph sid db).markers =
    db.markers.filter (fun m => ¬ m.supergraph_id = sid)

/-- GraphBuilder._rel_extends WHERE clause: p2.fqn = ref OR p2.name = ref
OR p2.fqn ENDS WITH ('.' + ref) OR p2.fqn ENDS WITH ('$' + ref). -/
def refMatches (t : TypeNode) (ref : String) : Bool :=
  t.fqn == ref || t.name == ref ||
  strEndsWith t.fqn ("." ++ ref) || strEndsWith t.fqn ("$" ++ ref)

/-- MERGE of a relationship between two Type nodes, identified by their
(unique) fqns. -/
def mergePairEdge (es : List (String × String)) (e : String × String) :
    List (String × String) :=
  if e ∈ es then es else es ++ [e]

/-- GraphBuilder._rel_extends: UNWIND pairs (child_fqn, parent_ref);
MATCH the child Type by fqn and every Type p2 satisfying refMatches;
MERGE (c)-[:EXTENDS]->(p2) for each row.  Result: the EXTENDS edge list
as (child fqn, parent fqn) pairs. -/
def rel_extends (p r : String) (pairs : List (String × String))
    (types : List TypeNode) : List (String × String) :=
  pairs.foldl
    (fun es pr =>
      let cs := types.filter fun t =>
        t.project_name = p ∧ t.repo_id = r ∧ t.fqn = pr.1
      let ps := types.filter fun t =>
        t.project_name = p ∧ t.repo_id = r ∧ refMatches t pr.2
      (cs.flatMap fun c => ps.map fun t => (c.fqn, t.fqn)).foldl mergePairEdge es)
    []

/-- GraphBuilder._rel_implements: textually the same query as
_rel_extends with relationship type IMPLEMENTS. -/
def rel_implements (p r : String) (pairs : List (String × String))
    (types : List TypeNode) : List (String × String) :=
  pairs.foldl
    (fun es pr =>
      let cs := types.filter fun t =>
        t.project_name = p ∧ t.repo_id = r ∧ t.fqn = pr.1
      let ps := types.filter fun t =>
        t.project_name = p ∧ t.repo_id = r ∧ refMatches t pr.2
      (cs.flatMap fun c => ps.map fun t => (c.fqn, t.fqn)).foldl mergePairEdge es)
    []

/-- A method row handed to GraphBuilder._upsert_methods (a dict produced
by either parser backend).  `params` entries are {name, type} dicts with
possibly-missing entries; `modifiers` may be present in the row but is
not among the properties the Cypher SET writes. -/
structure MethodRow where
  project_name : String
  repo_id : String
  owner_fqn : String
  signature : String
  name : String := ""
  file : Option String := none
  returnType : Option String := none
  params : List (Option String × Option String) := []
  modifiers : List String := []
  beginLine : Option Int := none
  endLine : Option Int := none
  body_hash : Option String := none
deriving DecidableEq, Repr

/-- GraphBuilder._upsert_methods on a fresh MERGE (no pre-existing node):
the created Method node gets the key properties and the SET list
(name, file, returnType, param_types, param_names, beginLine, endLine,
body_hash).  The properties `params` and `modifiers` are not in the SET
list, so the stored node does not have them (null). -/
def upsert_method_row (x : MethodRow) : MethodNode :=
  { project_name := x.project_name, repo_id := x.repo_id,
    owner_fqn := x.owner_fqn, signature := x.signature,
    name := x.name, file := x.file, returnType := x.returnType,
    param_types := x.params.map fun p => coalesce p.2,
    param_names := x.params.map fun p => coalesce p.1,
    params := none, modifiers := none,
    beginLine := x.beginLine, endLine := x.endLine,
    body_hash := x.body_hash }

/-- The CASE WHEN of step 5 of superimpose_and_diff, as a Status. -/
def method_status (l r : MethodNode) : Status :=
  if methodSpec.same l r then Status.UNCHANGED else Status.CHANGED

end GraphDb

namespace JParse

open Str

/-- A method/constructor parameter as inspected by _extract_methods:
_node_name(p) and _type_ref_to_str(p.type / p.jtype) may both fail. -/
structure JParam where
  pname : Option String := none
  ptype : Option String := none
deriving DecidableEq, Repr

/-- The common tagged-node shape the generic walk of java_parser.py
dispatches on: type-declaration nodes (with the raw extends/implements
reference strings _type_ref_to_str yields and the member body list),
method/constructor nodes, field nodes (one declared name per declarator,
None when _node_name fails), and any other node (only its child nodes
matter to the walk). -/
inductive JNode where
  | typeDecl (name : Option String) (ext : Option String)
      (impls : List String) (body : List JNode)
  | methodDecl (name : Option String) (params : List JParam)
      (returnType : Option String)
  | fieldDecl (ftype : Option String) (declNames : List (Option String))
  | other (children : List JNode)

/-- The fqn rule of both walks: pkg-qualified for top-level types,
'$'-joined under an outer type. -/
def mkFqn (pkg : String) (outer : Option String) (nm : String) : String :=
  match outer with
  | some o => o ++ "$" ++ nm
  | none => if ¬ pkg = "" then pkg ++ "." ++ nm else nm

mutual

/-- Pass 1, _discover_types_in_unit.walk: record (simple name, fqn) for
every type declaration, recursing into type bodies for nested types and
into all children of other nodes. -/
def discoverNode (pkg : String) (n : JNode) (outer : Option String) :
    List (String × String) :=
  match n with
  | .typeDecl name _ _ body =>
      let nm := name.getD "Anonymous"
      let fqn := mkFqn pkg outer nm
      (nm, fqn) :: discoverList pkg body (some fqn)
  | .methodDecl _ _ _ => []
  | .fieldDecl _ _ => []
  | .other cs => discoverList pkg cs outer
termination_by structural n

def discoverList (pkg : String) (ns : List JNode) (outer : Option String) :
    List (String × String) :=
  match ns with
  | [] => []
  | n :: rest => discoverNode pkg n outer ++ discoverList pkg rest outer
termination_by structural ns

end

/-- The internal_simple_to_fqns defaultdict: append fqn to the entry of
the simple name, in discovery order. -/
def addSimple (idx : List (String × List String)) (s fqn : String) :
    List (String × List String) :=
  if idx.any fun e => e.1 = s then
    idx.map fun e => if e.1 = s then (e.1, e.2 ++ [fqn]) else e
  else idx ++ [(s, [fqn])]

def lookupSimple (idx : List (String × List String)) (s : String) :
    Option (List String) :=
  (idx.find? fun e => e.1 = s).map (·.2)

/-- resolve_import_to_internal_fqn: wildcard imports resolve to nothing;
an exact internal fqn wins; otherwise the first fqn recorded for the
import's simple name (last dot component); otherwise nothing. -/
def resolve_import_to_internal_fqn (ifqns : List String)
    (idx : List (String × List String)) (import_path : String) : Option String :=
  if strEndsWith import_path ".*" then none
  else if import_path ∈ ifqns then some import_path
  else
    match lookupSimple idx (lastDotComponent import_path) with
    | some fqns => fqns.head?
    | none => none

/-- re.sub(r"<.*?>", "", t): repeatedly delete from a '<' through the
next '>' (non-greedy), leaving a '<' with no later '>' in place. -/
def stripGenerics (cs : List Char) : List Char :=
  match cs with
  | [] => []
  | c :: rest =>
    if c = '<' ∧ rest.contains '>' then
      stripGenerics ((rest.dropWhile fun d => ¬ d = '>').drop 1)
    else
      c :: stripGenerics rest
termination_by cs.length
decreasing_by
  · have h1 : (rest.dropWhile fun d => ¬ d = '>').length ≤ rest.length :=
      (List.dropWhile_sublist _).length_le
    simp only [List.length_drop, List.length_cons]
    omega
  · simp

/-- A Type entity of the syntactic graph (graph["types"][fqn]). -/
structure TypeEnt where
  project_name : String
  repo_id : String
  name : String
  fqn : String
  file : String
  file_hash : String
deriving DecidableEq, Repr

/-- A Method entity as emitted by _extract_methods. -/
structure MethodEnt where
  project_name : String
  repo_id : String
  owner_fqn : String
  name : String
  signature : String
  returnType : String
  params : List (String × String)
deriving DecidableEq, Repr

/-- A Field entity as emitted by _extract_fields (one per declared name). -/
structure FieldEnt where
  project_name : String
  repo_id : String
  owner_fqn : String
  name : String
  type : String
deriving DecidableEq, Repr

/-- A dependency edge record of graph["dependencies"]. -/
structure DepEdge where
  project_name : String
  repo_id : String
  from_fqn : String
  to_fqn : String
  to_simple : String
  via : String
  file : String
deriving DecidableEq, Repr

/-- The graph dict parse_directory builds (types is a dict fqn -> entity,
modelled as an insertion-ordered key-value list with replace-on-rebind). -/
structure PGraph where
  types : List (String × TypeEnt) := []
  methods : List MethodEnt := []
  fields : List FieldEnt := []
  dependencies : List DepEdge := []
  extendsRefs : List (String × String) := []
  implementsRefs : List (String × String) := []
  parse_errors : Nat := 0
deriving DecidableEq, Repr

/-- graph["types"][fqn] = {...}: dict assignment keeps the position of an
existing key and appends a new one. -/
def upsertType (ts : List (String × TypeEnt)) (fqn : String) (t : TypeEnt) :
    List (String × TypeEnt) :=
  if ts.any fun e => e.1 = fqn then
    ts.map fun e => if e.1 = fqn then (fqn, t) else e
  else ts ++ [(fqn, t)]

/-- _extract_methods: name defaults to "anonymous", each parameter type
to "?"; signature = name(type,...) in declaration order; returnType
defaults to "void". -/
def extract_method (pn rid owner : String) (name : Option String)
    (ps : List JParam) (rt : Option String) : MethodEnt :=
  let nm := name.getD "anonymous"
  let params := ps.map fun p => (p.pname.getD "", p.ptype.getD "?")
  { project_name := pn, repo_id := rid, owner_fqn := owner, name := nm,
    signature := nm ++ "(" ++ String.intercalate "," (params.map (·.2)) ++ ")",
    returnType := rt.getD "void", params := params }

/-- _extract_fields: one Field record per declarator that has a name, all
with the declaration's type (default "?"); the type is also appended to
the owner's field-type list once per emitted record. -/
def extract_fields (pn rid owner : String) (ftype : Option String)
    (declNames : List (Option String)) : List FieldEnt × List String :=
  let ft := ftype.getD "?"
  declNames.foldl
    (fun acc nmo =>
      match nmo with
      | none => acc
      | some nm => (acc.1 ++ [⟨pn, rid, owner, nm, ft⟩], acc.2 ++ [ft]))
    ([], [])

/-- Field-type dependency target: strip generics, trim, take the last
dot component, look it up in the simple-name index (first match). -/
def fieldDepTarget (idx : List (String × List String)) (tname : String) :
    Option (String × String) :=
  let base := lastDotComponent (strTrim ((stripGenerics tname.data).asString))
  match lookupSimple idx base with
  | some fqns => fqns.head?.map fun f => (f, base)
  | none => none

/-- Per-file context of the pass-2 walk: package, relative path, file
hash, the file's resolved internal imports, and the simple-name index. -/
structure WalkCtx where
  project_name : String
  repo_id : String
  pkg : String
  file_rel : String
  file_hash : String
  resolvedImports : List String
  simpleIdx : List (String × List String)
deriving Repr

mutual

/-- Pass 2 walk on one node.  For a type declaration: record the Type
entity, the raw extends/implements references (skipping empty strings),
process the body members (nested types recurse, methods and fields are
extracted, any other member is walked with this type as outer), then
append one via=import dependency per file-level resolved import and one
via=field dependency per internal field type. -/
def walkNode (ctx : WalkCtx) (n : JNode) (outer : Option String)
    (g : PGraph) : PGraph :=
  match n with
  | .typeDecl name ext impls body =>
      let nm := name.getD "Anonymous"
      let fqn := mkFqn ctx.pkg outer nm
      let tent : TypeEnt :=
        ⟨ctx.project_name, ctx.repo_id, nm, fqn, ctx.file_rel, ctx.file_hash⟩
      let g := { g with types := upsertType g.types fqn tent }
      let g := match ext with
        | some e =>
          if ¬ e = "" then { g with extendsRefs := g.extendsRefs ++ [(fqn, e)] }
          else g
        | none => g
      let g := impls.foldl
        (fun g it =>
          if ¬ it = "" then
            { g with implementsRefs := g.implementsRefs ++ [(fqn, it)] }
          else g) g
      let res := walkBody ctx body fqn g
      let g := res.1
      let g := ctx.resolvedImports.foldl
        (fun g tf =>
          { g with dependencies := g.dependencies ++
              [⟨ctx.project_name, ctx.repo_id, fqn, tf,
                lastDotComponent tf, "import", ctx.file_rel⟩] }) g
      res.2.foldl
        (fun g tn =>
          match fieldDepTarget ctx.simpleIdx tn with
          | some (tf, base) =>
            { g with dependencies := g.dependencies ++
                [⟨ctx.project_name, ctx.repo_id, fqn, tf, base, "field",
                  ctx.file_rel⟩] }
          | none => g) g
  | .methodDecl _ _ _ => g
  | .fieldDecl _ _ => g
  | .other cs => walkForest ctx cs outer g
termination_by structural n

/-- The body loop of a type declaration; returns the updated graph and
the collected field types of the direct field members. -/
def walkBody (ctx : WalkCtx) (cs : List JNode) (fqn : String) (g : PGraph) :
    PGraph × List String :=
  match cs with
  | [] => (g, [])
  | c :: rest =>
    let step : PGraph × List String :=
      match c with
      | .typeDecl _ _ _ _ => (walkNode ctx c (some fqn) g, [])
      | .methodDecl nm ps rt =>
          ({ g with methods := g.methods ++
              [extract_method ctx.project_name ctx.repo_id fqn nm ps rt] }, [])
      | .fieldDecl ft decls =>
          let fr := extract_fields ctx.project_name ctx.repo_id fqn ft decls
          ({ g with fields := g.fields ++ fr.1 }, fr.2)
      | .other _ => (walkNode ctx c (some fqn) g, [])
    let rec_ := walkBody ctx rest fqn step.1
    (rec_.1, step.2 ++ rec_.2)
termination_by structural cs

def walkForest (ctx : WalkCtx) (cs : List JNode) (outer : Option String)
    (g : PGraph) : PGraph :=
  match cs with
  | [] => g
  | c :: rest => walkForest ctx rest outer (walkNode ctx c outer g)
termination_by structural cs

end

/-- One source file as seen by parse_directory: relative path, content
hash, package and import list (from the unit or the regex fallback), and
the parsed top-level node forest (none when no backend parsed it). -/
structure JFile where
  path : String
  hash : String
  pkg : String
  imports : List String
  unit : Option (List JNode)

/-- JavaProjectParser.parse_directory, syntactic pipeline: pass 1 builds
the internal fqn set and the simple-name index over all files; pass 2
walks each parsed file (counting unparsed ones in parse_errors) with the
file's imports resolved to internal fqns. -/
def parse_directory_syntactic (pn rid : String) (files : List JFile) : PGraph :=
  let disc := files.foldl
    (fun acc f =>
      match f.unit with
      | some ns => acc ++ discoverList f.pkg ns none
      | none => acc) []
  let ifqns := disc.map (·.2)
  let idx := disc.foldl (fun idx pr => addSimple idx pr.1 pr.2) []
  files.foldl
    (fun g f =>
      match f.unit with
      | none => { g with parse_errors := g.parse_errors + 1 }
      | some ns =>
        let resolved := f.imports.filterMap fun imp =>
          resolve_import_to_internal_fqn ifqns idx (strTrim imp)
        walkForest ⟨pn, rid, f.pkg, f.path, f.hash, resolved, idx⟩ ns none g)
    {}

/-- One invocation of the external semantic backend
(SemanticJavaProjectParser.parse_project): whether a jar was found, the
subprocess return code, and the graph its stdout denotes when it is
valid JSON (the shape adaptation of valid output never fails). -/
structure BackendRun where
  jarFound : Bool
  returncode : Int
  stdoutGraph : Option PGraph
deriving Repr

/-- parse_project raises (models Except.error) when no jar is found,
when the backend exits non-zero, or when stdout is not valid JSON. -/
def parse_project (b : BackendRun) : Except String PGraph :=
  if ¬ b.jarFound then Except.error "Semantic parser jar not found"
  else if ¬ b.returncode = 0 then Except.error "Semantic parser failed"
  else
    match b.stdoutGraph with
    | none => Except.error "Semantic parser did not return valid JSON"
    | some g => Except.ok g

/-- JavaProjectParser.parse_directory: try the semantic backend first;
any exception falls back to the in-process syntactic pipeline. -/
def parse_directory (b : BackendRun) (pn rid : String) (files : List JFile) :
    PGraph :=
  match parse_project b with
  | Except.ok g => g
  | Except.error _ => parse_directory_syntactic pn rid files

end JParse

namespace Patch

open GraphDb Str

/-- State of a path on disk at patch-attachment time: missing, existing
but failing to open (e.g. permissions), or readable with these lines
(the splitlines(True) result). -/
inductive FileState where
  | absent
  | unreadable
  | content (lines : List String)
deriving DecidableEq

/-- The filesystem the patch stage reads. -/
abbrev FS := String → FileState

/-- Abstract stand-in for "\n".join(difflib.unified_diff(a, b,
fromfile, tofile, n, lineterm='')); difflib is library code, so its
output function is a parameter. -/
abbrev UDiff := List String → List String → String → String → Nat → String

def joinPath (root rel : String) : String := root ++ "/" ++ rel

/-- Reading in _unified_diff_for_files: a None path or a missing file
yields no lines; an existing file is open()ed with no try/except, so an
unreadable file raises. -/
def readWholeFile (fs : FS) (path : Option String) : Except Unit (List String) :=
  match path with
  | none => Except.ok []
  | some p =>
    match fs p with
    | .content ls => Except.ok ls
    | .unreadable => Except.error ()
    | .absent => Except.ok []

/-- _read_lines in _unified_diff_for_file_ranges: empty path or missing
file yields [], and any read exception is caught and yields []. -/
def readLinesCaught (fs : FS) (path : String) : List String :=
  if path = "" then []
  else
    match fs path with
    | .content ls => ls
    | _ => []

/-- The post-hoc truncation applied to an oversized patch. -/
def truncatePatch (maxc : Nat) (patch : String) : String :=
  if patch.length > maxc then strTake patch maxc ++ "\n... (diff truncated)"
  else patch

/-- SuperimposeService._unified_diff_for_files. -/
def unified_diff_for_files (udiff : UDiff) (fs : FS)
    (lroot rroot lrel rrel : String) (maxc : Nat) : Except Unit String := do
  let ll ← readWholeFile fs (if ¬ lrel = "" then some (joinPath lroot lrel) else none)
  let rl ← readWholeFile fs (if ¬ rrel = "" then some (joinPath rroot rrel) else none)
  let aname := "a/" ++ (if ¬ lrel = "" then lrel else "dev/null")
  let bname := "b/" ++ (if ¬ rrel = "" then rrel else "dev/null")
  let patch := udiff ll rl aname bname 3
  if strTrim patch = "" then pure ""
  else pure (truncatePatch maxc patch)

/-- The Python slice l_all[b-1 : e] (guarded by "if l_all else []"). -/
def rangeSlice (ls : List String) (b e : Int) : List String :=
  if ls = [] then [] else (ls.drop (b - 1).toNat).take (e - b + 1).toNat

/-- SuperimposeService._unified_diff_for_file_ranges with its fixed
context=3 default: read both files (exceptions caught), clamp the
1-indexed inclusive ranges, slice, and diff the slices. -/
def unified_diff_for_file_ranges (udiff : UDiff) (fs : FS)
    (lroot rroot lrel rrel : String) (lb le rb re : Int) (maxc : Nat) : String :=
  let lpath := if ¬ lrel = "" then joinPath lroot lrel else ""
  let rpath := if ¬ rrel = "" then joinPath rroot rrel else ""
  let lall := readLinesCaught fs lpath
  let rall := readLinesCaught fs rpath
  let lb' := max 1 lb
  let le' := max lb' le
  let rb' := max 1 rb
  let re' := max rb' re
  let lslice := rangeSlice lall lb' le'
  let rslice := rangeSlice rall rb' re'
  let llabel :=
    if ¬ lrel = "" then
      "a/" ++ lrel ++ ":" ++ toString lb' ++ "-" ++ toString le'
    else "/dev/null"
  let rlabel :=
    if ¬ rrel = "" then
      "b/" ++ rrel ++ ":" ++ toString rb' ++ "-" ++ toString re'
    else "/dev/null"
  truncatePatch maxc (udiff lslice rslice llabel rlabel 3)

/-- The per-method-marker dispatch of _attach_file_diffs: range diff when
both sides have usable ranges (lb > 0 and le >= lb and rb > 0 and
re >= rb), else whole-file diff. -/
def method_patch (udiff : UDiff) (fs : FS) (lroot rroot lf rf : String)
    (lb le rb re : Int) (maxc : Nat) : Except Unit String :=
  if lb > 0 ∧ le ≥ lb ∧ rb > 0 ∧ re ≥ rb then
    Except.ok (unified_diff_for_file_ranges udiff fs lroot rroot lf rf lb le rb re maxc)
  else
    unified_diff_for_files udiff fs lroot rroot lf rf maxc

/-- SET d.diff = patch on the marker with the given key. -/
def setMarkerDiff (ms : List Marker) (sid : String) (k : Kind)
    (key patch : String) : List Marker :=
  ms.map fun m =>
    if m.supergraph_id = sid ∧ m.kind = k ∧ m.key = key then
      { m with diff := some patch }
    else m

/-- One row of the CHANGED-Type query of _attach_file_diffs: marker key
and the two coalesced relative file paths. -/
structure TypeRow where
  key : String
  left_file : String
  right_file : String
deriving DecidableEq, Repr

/-- The Type loop of _attach_file_diffs: compute the whole-file patch per
row (a raised exception aborts the whole attachment) and SET d.diff when
the patch is non-empty. -/
def attach_type_patches (udiff : UDiff) (fs : FS) (sid lroot rroot : String)
    (maxc : Nat) (rows : List TypeRow) (ms : List Marker) :
    Except Unit (List Marker) :=
  rows.foldlM
    (fun ms row => do
      let patch ← unified_diff_for_files udiff fs lroot rroot
        row.left_file row.right_file maxc
      if ¬ patch = "" then pure (setMarkerDiff ms sid Kind.type row.key patch)
      else pure ms)
    ms

/-- One row of the CHANGED-Method query of _attach_file_diffs. -/
structure MethodPatchRow where
  key : String
  left_file : String
  right_file : String
  left_begin : Int
  left_end : Int
  right_begin : Int
  right_end : Int
deriving DecidableEq, Repr

/-- The Method loop of _attach_file_diffs. -/
def attach_method_patches (udiff : UDiff) (fs : FS) (sid lroot rroot : String)
    (maxc : Nat) (rows : List MethodPatchRow) (ms : List Marker) :
    Except Unit (List Marker) :=
  rows.foldlM
    (fun ms row => do
      let patch ← method_patch udiff fs lroot rroot row.left_file row.right_file
        row.left_begin row.left_end row.right_begin row.right_end maxc
      if ¬ patch = "" then pure (setMarkerDiff ms sid Kind.method row.key patch)
      else pure ms)
    ms

end Patch

namespace Inputs

open GraphDb JParse Patch

/-- Two internal types share the simple name Base; a third type extends
the reference "Base". -/
def c3Types : List TypeNode :=
  [{ project_name := "p", repo_id := "r", fqn := "com.a.Base", name := "Base" },
   { project_name := "p", repo_id := "r", fqn := "com.b.Base", name := "Base" },
   { project_name := "p", repo_id := "r", fqn := "com.x.Child", name := "Child" }]

/-- Two aligned method rows that differ only in their modifier list. -/
def c4Lrow : MethodRow :=
  { project_name := "p", repo_id := "l", owner_fqn := "com.A",
    signature := "foo()", name := "foo", returnType := some "void",
    modifiers := ["public"] }

def c4Rrow : MethodRow :=
  { project_name := "p", repo_id := "r", owner_fqn := "com.A",
    signature := "foo()", name := "foo", returnType := some "void",
    modifiers := ["private"] }

/-- A file declaring top-level Outer with nested Inner, importing one
internal type (com.x.Bar) and one external type (java.util.List). -/
def c5OuterFile : JFile :=
  { path := "com/x/Outer.java", hash := "h1", pkg := "com.x",
    imports := ["com.x.Bar", "java.util.List"],
    unit := some [JNode.typeDecl (some "Outer") none []
      [JNode.typeDecl (some "Inner") none [] []]] }

/-- The file declaring the imported internal type com.x.Bar. -/
def c5BarFile : JFile :=
  { path := "com/x/Bar.java", hash := "h2", pkg := "com.x",
    imports := [], unit := some [JNode.typeDecl (some "Bar") none [] []] }

/-- A type declaring the two overloads foo(int) and foo(String). -/
def c6File : JFile :=
  { path := "com/x/A.java", hash := "h", pkg := "com.x", imports := [],
    unit := some [JNode.typeDecl (some "A") none []
      [JNode.methodDecl (some "foo") [⟨some "a", some "int"⟩] (some "void"),
       JNode.methodDecl (some "foo") [⟨some "s", some "String"⟩] (some "void")]] }

/-- A backend invocation that found a jar but exited non-zero. -/
def c7Backend : BackendRun :=
  { jarFound := true, returncode := 1, stdoutGraph := none }

/-- A single source file for the fallback pipeline of the c7 witness. -/
def c7File : JFile :=
  { path := "com/x/B.java", hash := "hb", pkg := "com.x", imports := [],
    unit := some [JNode.typeDecl (some "B") none [] []] }

/-- A concrete unified-diff stand-in used by the patch witnesses. -/
def udiff0 : UDiff := fun a b _ _ _ => if a = b then "" else "x"

/-- A filesystem where the left file exists but cannot be read. -/
def fsUnreadableLeft : FS := fun p =>
  if p = "L/Foo.java" then FileState.unreadable
  else if p = "R/Foo.java" then FileState.content ["class Foo {}\n"]
  else FileState.absent

/-- A small readable filesystem for the range-diff witnesses. -/
def fsSmall : FS := fun p =>
  if p = "L/a.java" then FileState.content ["a\n", "b\n", "c\n", "d\n"]
  else if p = "R/a.java" then FileState.content ["a\n", "x\n", "c\n", "d\n"]
  else FileState.absent

/-- The CHANGED Type marker row whose left file is unreadable. -/
def c8Rows : List TypeRow :=
  [{ key := "com.Foo", left_file := "Foo.java", right_file := "Foo.java" }]

def c8Markers : List Marker :=
  [{ supergraph_id := "s", kind := Kind.type, key := "com.Foo",
     status := Status.CHANGED }]

/-- A database exercising delete_supergraph: two supergraph ids, entity
nodes, structural relationships, alignment edges, DIFF edges, markers. -/
def c10TypeL : TypeNode :=
  { project_name := "p", repo_id := "l", fqn := "A", file_hash := some "1" }

def c10TypeR : TypeNode :=
  { project_name := "p", repo_id := "r", fqn := "A", file_hash := some "2" }

def c10Db : DB :=
  { projects := [{ project_name := "p", repo_id := "l" }],
    types := [c10TypeL, c10TypeR],
    methods := [{ project_name := "p", repo_id := "l", owner_fqn := "A",
                  signature := "m()" }],
    fields := [{ project_name := "p", repo_id := "l", owner_fqn := "A",
                 name := "f" }],
    structRels := [{ relType := "HAS_CLASS", src := "p", dst := "A" }],
    sameFqn := [⟨"s1", c10TypeL, c10TypeR⟩, ⟨"s2", c10TypeL, c10TypeR⟩],
    sameSignature := [],
    sameField := [],
    typeDiff := [⟨"s1", c10TypeL, ⟨"s1", Kind.type, "A"⟩⟩,
                 ⟨"s2", c10TypeL, ⟨"s2", Kind.type, "A"⟩⟩],
    methodDiff := [],
    fieldDiff := [],
    markers := [{ supergraph_id := "s1", kind := Kind.type, key := "A",
                  status := Status.CHANGED },
                { supergraph_id := "s2", kind := Kind.type, key := "A",
                  status := Status.UNCHANGED }] }

/-- Left repo: types A (changed) and B (removed); method A::m() on both
sides; field A::f only on the right.  Right repo: types A and C. -/
def c1Db : DB :=
  { types := [{ project_name := "p", repo_id := "l", fqn := "A", file_hash := some "1" },
              { project_name := "p", repo_id := "l", fqn := "B", file_hash := some "2" },
              { project_name := "p", repo_id := "r", fqn := "A", file_hash := some "9" },
              { project_name := "p", repo_id := "r", fqn := "C", file_hash := some "3" }],
    methods := [{ project_name := "p", repo_id := "l", owner_fqn := "A",
                  signature := "m()", returnType := some "void" },
                { project_name := "p", repo_id := "r", owner_fqn := "A",
                  signature := "m()", returnType := some "int" }],
    fields := [{ project_name := "p", repo_id := "r", owner_fqn := "A",
                 name := "f", type := some "int" }] }

end Inputs

namespace GraphDb

variable {N K : Type}

/-- The marker records one kind block of superimpose_and_diff produces
when run from a state with no sid-tagged edges or markers (the state
delete_supergraph leaves): one UNCHANGED/CHANGED marker per aligned
pair, one REMOVED marker per left node without an aligned right node,
one ADDED marker per right node without an aligned left node. -/
def partitionMarkers (S : AlignSpec N K) [DecidableEq K]
    [∀ l r : N, Decidable (S.same l r)]
    (p lrepo rrepo sid : String) (k : Kind) (nodes : List N) : List Marker :=
  ((alignPairs S p lrepo rrepo nodes).map fun pr =>
    { supergraph_id := sid, kind := k, key := S.mkey pr.1,
      status := if S.same pr.1 pr.2 then Status.UNCHANGED else Status.CHANGED,
      fqn := S.mkey pr.1 })
  ++ (((sideNodes S p lrepo nodes).filter fun l =>
        ¬ (sideNodes S p rrepo nodes).any fun r => S.akey r = S.akey l).map
      fun l => { supergraph_id := sid, kind := k, key := S.mkey l,
                 status := Status.REMOVED, fqn := S.mkey l })
  ++ (((sideNodes S p rrepo nodes).filter fun r =>
        ¬ (sideNodes S p lrepo nodes).any fun l => S.akey l = S.akey r).map
      fun r => { supergraph_id := sid, kind := k, key := S.mkey r,
                 status := Status.ADDED, fqn := S.mkey r })

/-- The claim C1 property, stated over one kind: among the markers sk of
that kind, keys are pairwise distinct (no entity is double-counted), the
keys are exactly the marker keys of left ∪ right (no entity is omitted),
an aligned pair gets UNCHANGED or CHANGED, a left entity with no aligned
right entity gets REMOVED, and a right entity with no aligned left
entity gets ADDED. -/
def specCompleteClassification (S : AlignSpec N K) (L R : List N)
    (sk : List Marker) : Prop :=
  (sk.map Marker.key).Nodup ∧
  (∀ s : String, s ∈ sk.map Marker.key ↔
    s ∈ L.map S.mkey ∨ s ∈ R.map S.mkey) ∧
  (∀ l ∈ L, ∀ r ∈ R, S.akey l = S.akey r →
    ∃ m ∈ sk, m.key = S.mkey l ∧
      (m.status = Status.UNCHANGED ∨ m.status = Status.CHANGED)) ∧
  (∀ l ∈ L, (∀ r ∈ R, ¬ S.akey r = S.akey l) →
    ∃ m ∈ sk, m.key = S.mkey l ∧ m.status = Status.REMOVED) ∧
  (∀ r ∈ R, (∀ l ∈ L, ¬ S.akey l = S.akey r) →
    ∃ m ∈ sk, m.key = S.mkey r ∧ m.status = Status.ADDED)

end GraphDb


namespace GraphDb

theorem mem_mergePairEdge {es : List (String × String)} {e a : String × String} :
    a ∈ mergePairEdge es e ↔ a ∈ es ∨ a = e := by
  unfold mergePairEdge
  split
  · next h => exact ⟨Or.inl, fun x => x.elim id fun hx => hx ▸ h⟩
  · simp

theorem mem_foldl_mergePairEdge (items : List (String × String))
    (es : List (String × String)) (a : String × String) :
    a ∈ items.foldl mergePairEdge es ↔ a ∈ es ∨ a ∈ items := by
  induction items generalizing es with
  | nil => simp
  | cons e rest ih =>
    simp only [List.foldl_cons, ih, mem_mergePairEdge, List.mem_cons]
    tauto

theorem mem_foldl_rows (rows : String × String → List (String × String))
    (pairs : List (String × String)) (es : List (String × String))
    (a : String × String) :
    a ∈ pairs.foldl (fun es pr => (rows pr).foldl mergePairEdge es) es ↔
      a ∈ es ∨ ∃ pr ∈ pairs, a ∈ rows pr := by
  induction pairs generalizing es with
  | nil => simp
  | cons pr rest ih =>
    simp only [List.foldl_cons, ih, mem_foldl_mergePairEdge, List.mem_cons,
      exists_eq_or_imp]
    tauto

end GraphDb

namespace Claims

open GraphDb JParse Patch Str Inputs

/-- C3, counterexample: the reference "Base" is matched by two internal
types (com.a.Base and com.b.Base, both with simple name Base), and
_rel_extends merges an EXTENDS edge to both of them, not exactly one
edge determined by a first-match fallback order. -/
theorem c3_two_edges_counterexample :
    (rel_extends "p" "r" [("com.x.Child", "Base")] c3Types).length = 2 ∧
    ("com.x.Child", "com.a.Base") ∈
      rel_extends "p" "r" [("com.x.Child", "Base")] c3Types ∧
    ("com.x.Child", "com.b.Base") ∈
      rel_extends "p" "r" [("com.x.Child", "Base")] c3Types := by decide

/-- C3, amended: for every recorded extends/implements reference, an
EXTENDS/IMPLEMENTS edge is merged from the (existing) child type to
EVERY internal Type whose fqn equals the reference, or whose name equals
it, or whose fqn ends in '.'+reference or '$'+reference — there is no
fallback order and no first-match rule, so several edges can arise; when
no type matches, no edge is created (the reference is silently dropped). -/
theorem c3_resolution_characterization (p r : String)
    (pairs : List (String × String)) (types : List TypeNode) (cf tf : String) :
    ((cf, tf) ∈ rel_extends p r pairs types ↔
      (∃ ref, (cf, ref) ∈ pairs ∧
        (∃ c ∈ types, c.project_name = p ∧ c.repo_id = r ∧ c.fqn = cf) ∧
        (∃ t ∈ types, t.project_name = p ∧ t.repo_id = r ∧ t.fqn = tf ∧
          refMatches t ref = true))) ∧
    ((cf, tf) ∈ rel_implements p r pairs types ↔
      (∃ ref, (cf, ref) ∈ pairs ∧
        (∃ c ∈ types, c.project_name = p ∧ c.repo_id = r ∧ c.fqn = cf) ∧
        (∃ t ∈ types, t.project_name = p ∧ t.repo_id = r ∧ t.fqn = tf ∧
          refMatches t ref = true))) := by
  constructor
  · rw [rel_extends,
      mem_foldl_rows (fun pr =>
        (types.filter fun t => t.project_name = p ∧ t.repo_id = r ∧ t.fqn = pr.1).flatMap
          fun c =>
            (types.filter fun t =>
              t.project_name = p ∧ t.repo_id = r ∧ refMatches t pr.2).map
              fun t => (c.fqn, t.fqn))]
    simp only [List.not_mem_nil, false_or, List.mem_flatMap, List.mem_map,
      List.mem_filter, decide_eq_true_eq, Prod.mk.injEq]
    constructor
    · rintro ⟨pr, hpr, c, ⟨hc, hcp, hcr, hcf⟩, t, ⟨ht, htp, htr, htm⟩, h1, h2⟩
      refine ⟨pr.2, ?_, ⟨c, hc, hcp, hcr, h1⟩, ⟨t, ht, htp, htr, h2, htm⟩⟩
      have : pr = (cf, pr.2) := by
        cases pr; simp_all
      rw [← this]; exact hpr
    · rintro ⟨ref, hpr, ⟨c, hc, hcp, hcr, hcf⟩, ⟨t, ht, htp, htr, htf, htm⟩⟩
      exact ⟨(cf, ref), hpr, c, ⟨hc, hcp, hcr, hcf⟩, t, ⟨ht, htp, htr, htm⟩,
        hcf, htf⟩
  · rw [rel_implements,
      mem_foldl_rows (fun pr =>
        (types.filter fun t => t.project_name = p ∧ t.repo_id = r ∧ t.fqn = pr.1).flatMap
          fun c =>
            (types.filter fun t =>
              t.project_name = p ∧ t.repo_id = r ∧ refMatches t pr.2).map
              fun t => (c.fqn, t.fqn))]
    simp only [List.not_mem_nil, false_or, List.mem_flatMap, List.mem_map,
      List.mem_filter, decide_eq_true_eq, Prod.mk.injEq]
    constructor
    · rintro ⟨pr, hpr, c, ⟨hc, hcp, hcr, hcf⟩, t, ⟨ht, htp, htr, htm⟩, h1, h2⟩
      refine ⟨pr.2, ?_, ⟨c, hc, hcp, hcr, h1⟩, ⟨t, ht, htp, htr, h2, htm⟩⟩
      have : pr = (cf, pr.2) := by
        cases pr; simp_all
      rw [← this]; exact hpr
    · rintro ⟨ref, hpr, ⟨c, hc, hcp, hcr, hcf⟩, ⟨t, ht, htp, htr, htf, htm⟩⟩
      exact ⟨(cf, ref), hpr, c, ⟨hc, hcp, hcr, hcf⟩, t, ⟨ht, htp, htr, htm⟩,
        hcf, htf⟩

/-- C4, counterexample: two aligned method rows that differ only in
their modifier lists produce Method nodes the diff classifies UNCHANGED,
because _upsert_methods never stores a modifiers (or params) property,
so the CASE WHEN compares coalesce(toString(null),'') on both sides. -/
theorem c4_modifiers_counterexample :
    c4Lrow.modifiers ≠ c4Rrow.modifiers ∧
    methodSpec.akey (upsert_method_row c4Lrow) =
      methodSpec.akey (upsert_method_row c4Rrow) ∧
    method_status (upsert_method_row c4Lrow) (upsert_method_row c4Rrow) =
      Status.UNCHANGED := by decide

/-- C4, amended: an aligned Method pair is UNCHANGED iff the stored
coalesced properties (returnType, toString(params), toString(modifiers),
body_hash) agree; for nodes written by _upsert_methods the params and
modifiers properties are never stored, so the classification reduces to
equality of coalesced returnType and body_hash, and a method differing
only in its modifier set is classified UNCHANGED. -/
theorem c4_fingerprint_reduction :
    (∀ l r : MethodNode, method_status l r = Status.UNCHANGED ↔
      (coalesce l.returnType = coalesce r.returnType ∧
       coalesce l.params = coalesce r.params ∧
       coalesce l.modifiers = coalesce r.modifiers ∧
       coalesce l.body_hash = coalesce r.body_hash)) ∧
    (∀ x y : MethodRow,
      method_status (upsert_method_row x) (upsert_method_row y) =
          Status.UNCHANGED ↔
        (coalesce x.returnType = coalesce y.returnType ∧
         coalesce x.body_hash = coalesce y.body_hash)) := by
  have h1 : ∀ l r : MethodNode,
      method_status l r = Status.UNCHANGED ↔ methodSpec.same l r := by
    intro l r
    unfold method_status
    split
    · next h => simp [h]
    · next h => simp [h]
  refine ⟨fun l r => h1 l r, fun x y => ?_⟩
  rw [h1]
  show coalesce (upsert_method_row x).returnType = _ ∧ _ ∧ _ ∧ _ ↔ _
  simp [upsert_method_row, coalesce]

/-- C5: on a file declaring top-level Outer with nested Inner that
imports one internal type (com.x.Bar) and one external type
(java.util.List), the pipeline emits TWO via=import DependsOn edges for
the one resolved import — one from com.x.Outer and one from the nested
type com.x.Outer$Inner — because the dependency loop of walk() runs for
every type declaration, not only top-level ones as the code's own
comment ("applied to each top-level type declared in this file") and the
claim state.  The wildcard/external part of the claim holds: the
external import java.util.List produces no edge. -/
theorem c5_nested_type_also_gets_import_edges :
    (parse_directory_syntactic "p" "r" [c5OuterFile, c5BarFile]).dependencies =
      [{ project_name := "p", repo_id := "r", from_fqn := "com.x.Outer$Inner",
         to_fqn := "com.x.Bar", to_simple := "Bar", via := "import",
         file := "com/x/Outer.java" },
       { project_name := "p", repo_id := "r", from_fqn := "com.x.Outer",
         to_fqn := "com.x.Bar", to_simple := "Bar", via := "import",
         file := "com/x/Outer.java" }] := by decide

/-- C6: the extracted signature is the method name followed by the
comma-joined parameter types in declaration order in parentheses
(return type and modifiers do not occur in it), and the two overloads
foo(int) / foo(String) of one type yield two distinct Method entities
with signatures "foo(int)" and "foo(String)". -/
theorem c6_signature_format :
    (∀ (pn rid owner : String) (name : Option String) (ps : List JParam)
        (rt : Option String),
      (extract_method pn rid owner name ps rt).signature =
        name.getD "anonymous" ++ "(" ++
          String.intercalate "," (ps.map fun p => p.ptype.getD "?") ++ ")") ∧
    ((parse_directory_syntactic "p" "r" [c6File]).methods.map
        (fun m => m.signature) = ["foo(int)", "foo(String)"]) ∧
    (parse_directory_syntactic "p" "r" [c6File]).methods.Nodup := by
  refine ⟨fun pn rid owner name ps rt => ?_, by decide, by decide⟩
  simp [extract_method, List.map_map]
  rfl

/-- C7: when the semantic backend exits non-zero or emits output that is
not valid JSON, parse_project raises, and parse_directory catches the
error and returns the graph of the in-process syntactic pipeline. -/
theorem c7_backend_error_fallback (b : BackendRun) (pn rid : String)
    (files : List JFile) (h : ¬ b.returncode = 0 ∨ b.stdoutGraph = none) :
    (∃ msg, parse_project b = Except.error msg) ∧
    parse_directory b pn rid files = parse_directory_syntactic pn rid files := by
  have herr : ∃ msg, parse_project b = Except.error msg := by
    unfold parse_project
    by_cases hj : b.jarFound
    · rcases h with h | h
      · exact ⟨"Semantic parser failed", by simp [hj, h]⟩
      · by_cases hrc : b.returncode = 0
        · exact ⟨"Semantic parser did not return valid JSON", by simp [hj, hrc, h]⟩
        · exact ⟨"Semantic parser failed", by simp [hj, hrc]⟩
    · exact ⟨"Semantic parser jar not found", by simp [hj]⟩
  obtain ⟨msg, hm⟩ := herr
  refine ⟨⟨msg, hm⟩, ?_⟩
  unfold parse_directory
  rw [hm]

/-- C7 witness: a concrete backend run with return code 1 falls back to
the syntactic pipeline. -/
theorem c7_backend_error_fallback_witness :
    (∃ msg, parse_project c7Backend = Except.error msg) ∧
    parse_directory c7Backend "p" "r" [c7File] =
      parse_directory_syntactic "p" "r" [c7File] :=
  c7_backend_error_fallback c7Backend "p" "r" [c7File] (Or.inl (by decide))

end Claims

namespace Claims

open GraphDb JParse Patch Str Inputs

/-- C8, counterexample: a CHANGED Type marker whose left file exists but
cannot be read makes the whole-file diff raise (open() in
_unified_diff_for_files has no try/except), so the attachment loop — and
with it the diff run — fails instead of degrading by omitting the patch. -/
theorem c8_unreadable_file_fails_attachment :
    attach_type_patches udiff0 fsUnreadableLeft "s" "L" "R" 50000 c8Rows
      c8Markers = Except.error () ∧
    c8Markers.map Marker.status = [Status.CHANGED] := ⟨rfl, rfl⟩

/-- C8, amended: the Method range-diff path reads files through
_read_lines, which treats missing and unreadable files as empty and
never raises; the whole-file diff path (Type and Field markers, and
Methods without usable ranges) treats a missing file as empty and never
raises as long as no addressed file is existing-but-unreadable; and a
row whose computed patch is empty leaves its marker without a diff
property (the patch field is omitted). -/
theorem c8_degradation :
    (∀ (udiff : UDiff) (fs : FS) (lroot rroot lf rf : String)
        (lb le rb re : Int) (maxc : Nat),
      lb > 0 → le ≥ lb → rb > 0 → re ≥ rb →
      method_patch udiff fs lroot rroot lf rf lb le rb re maxc =
        Except.ok (unified_diff_for_file_ranges udiff fs lroot rroot lf rf
          lb le rb re maxc)) ∧
    (∀ (udiff : UDiff) (fs : FS) (lroot rroot lf rf : String) (maxc : Nat),
      (∀ path, ¬ fs path = FileState.unreadable) →
      ∃ s, unified_diff_for_files udiff fs lroot rroot lf rf maxc =
        Except.ok s) ∧
    (∀ (udiff : UDiff) (fs : FS) (sid lroot rroot : String) (maxc : Nat)
        (row : TypeRow) (ms : List Marker),
      unified_diff_for_files udiff fs lroot rroot row.left_file row.right_file
          maxc = Except.ok "" →
      attach_type_patches udiff fs sid lroot rroot maxc [row] ms =
        Except.ok ms) := by
  refine ⟨?_, ?_, ?_⟩
  · intro udiff fs lroot rroot lf rf lb le rb re maxc h1 h2 h3 h4
    unfold method_patch
    rw [if_pos ⟨h1, h2, h3, h4⟩]
  · intro udiff fs lroot rroot lf rf maxc h
    have hr : ∀ path : Option String, ∃ a, readWholeFile fs path = Except.ok a := by
      intro path
      match path with
      | none => exact ⟨[], rfl⟩
      | some q =>
        unfold readWholeFile
        cases hq : fs q with
        | absent => exact ⟨[], by simp [hq]⟩
        | unreadable => exact absurd hq (h q)
        | content ls => exact ⟨ls, by simp [hq]⟩
    obtain ⟨a, ha⟩ := hr (if ¬ lf = "" then some (joinPath lroot lf) else none)
    obtain ⟨b, hb⟩ := hr (if ¬ rf = "" then some (joinPath rroot rf) else none)
    unfold unified_diff_for_files
    rw [ha, hb]
    show ∃ s, (if _ = "" then pure "" else pure _) = _
    generalize udiff a b ("a/" ++ if ¬ lf = "" then lf else "dev/null")
      ("b/" ++ if ¬ rf = "" then rf else "dev/null") 3 = patch
    by_cases hc : strTrim patch = ""
    · exact ⟨"", by rw [if_pos hc]; rfl⟩
    · exact ⟨truncatePatch maxc patch, by rw [if_neg hc]; rfl⟩
  · intro udiff fs sid lroot rroot maxc row ms h
    unfold attach_type_patches
    simp only [List.foldlM, h]
    rfl

/-- C8 witness: even with the left file existing-but-unreadable, the
range-scoped method path returns a value instead of raising. -/
theorem c8_degradation_witness :
    method_patch udiff0 fsUnreadableLeft "L" "R" "Foo.java" "Foo.java"
        1 3 1 3 50000 =
      Except.ok (unified_diff_for_file_ranges udiff0 fsUnreadableLeft "L" "R"
        "Foo.java" "Foo.java" 1 3 1 3 50000) :=
  c8_degradation.1 udiff0 fsUnreadableLeft "L" "R" "Foo.java" "Foo.java"
    1 3 1 3 50000 (by decide) (by decide) (by decide) (by decide)

/-- C9: when both sides have usable 1-indexed inclusive ranges
(lb > 0, le >= lb, rb > 0, re >= rb), the attached method patch is the
unified diff of exactly the sliced line ranges [lb..le] and [rb..re] of
the two files with the fixed context window 3 (post-hoc truncated);
otherwise the patch falls back to the whole-file diff of the method's
owning file. -/
theorem c9_range_scoped_patch (udiff : UDiff) (fs : FS)
    (lroot rroot lf rf : String) (lb le rb re : Int) (maxc : Nat) :
    (lb > 0 ∧ le ≥ lb ∧ rb > 0 ∧ re ≥ rb →
      method_patch udiff fs lroot rroot lf rf lb le rb re maxc =
        Except.ok (truncatePatch maxc (udiff
          (rangeSlice (readLinesCaught fs
            (if ¬ lf = "" then joinPath lroot lf else "")) lb le)
          (rangeSlice (readLinesCaught fs
            (if ¬ rf = "" then joinPath rroot rf else "")) rb re)
          (if ¬ lf = "" then
            "a/" ++ lf ++ ":" ++ toString lb ++ "-" ++ toString le
           else "/dev/null")
          (if ¬ rf = "" then
            "b/" ++ rf ++ ":" ++ toString rb ++ "-" ++ toString re
           else "/dev/null")
          3))) ∧
    (¬ (lb > 0 ∧ le ≥ lb ∧ rb > 0 ∧ re ≥ rb) →
      method_patch udiff fs lroot rroot lf rf lb le rb re maxc =
        unified_diff_for_files udiff fs lroot rroot lf rf maxc) := by
  constructor
  · rintro h
    obtain ⟨h1, h2, h3, h4⟩ := h
    have e1 : max 1 lb = lb := by omega
    have e2 : max lb le = le := by omega
    have e3 : max 1 rb = rb := by omega
    have e4 : max rb re = re := by omega
    unfold method_patch
    rw [if_pos ⟨h1, h2, h3, h4⟩]
    simp only [unified_diff_for_file_ranges, e1, e2, e3, e4]
  · intro h
    unfold method_patch
    rw [if_neg h]

/-- C9 witness: concrete ranged diff on a small filesystem. -/
theorem c9_range_scoped_patch_witness :
    method_patch udiff0 fsSmall "L" "R" "a.java" "a.java" 2 3 2 3 50000 =
      Except.ok (truncatePatch 50000 (udiff0
        (rangeSlice (readLinesCaught fsSmall
          (if ¬ "a.java" = "" then joinPath "L" "a.java" else "")) 2 3)
        (rangeSlice (readLinesCaught fsSmall
          (if ¬ "a.java" = "" then joinPath "R" "a.java" else "")) 2 3)
        (if ¬ "a.java" = "" then
          "a/" ++ "a.java" ++ ":" ++ toString (2 : Int) ++ "-" ++ toString (3 : Int)
         else "/dev/null")
        (if ¬ "a.java" = "" then
          "b/" ++ "a.java" ++ ":" ++ toString (2 : Int) ++ "-" ++ toString (3 : Int)
         else "/dev/null")
        3)) :=
  (c9_range_scoped_patch udiff0 fsSmall "L" "R" "a.java" "a.java"
    2 3 2 3 50000).1 (by decide)

/-- C10: delete_supergraph removes exactly the SAME_FQN, SAME_SIGNATURE,
SAME_FIELD and DIFF relationships carrying the given supergraph_id and
the DiffMarker nodes with that supergraph_id; all entity nodes, all
structural relationships, and the edges/markers of other supergraph ids
are untouched.  The hypotheses state the invariant (maintained by the
code, which always tags a DIFF edge with its marker's supergraph_id)
that a DIFF edge and its target marker agree on the supergraph_id. -/
theorem c10_delete_scoped (sid : String) (db : DB)
    (h1 : ∀ e ∈ db.typeDiff, e.supergraph_id = e.dst.supergraph_id)
    (h2 : ∀ e ∈ db.methodDiff, e.supergraph_id = e.dst.supergraph_id)
    (h3 : ∀ e ∈ db.fieldDiff, e.supergraph_id = e.dst.supergraph_id) :
    DeleteFrame sid db := by
  unfold DeleteFrame delete_supergraph
  refine ⟨rfl, rfl, rfl, rfl, rfl, rfl, rfl, rfl, ?_, ?_, ?_, rfl⟩
  · show List.filter _ _ = List.filter _ _
    apply List.filter_congr
    intro e he
    rw [h1 e he]
    simp
  · show List.filter _ _ = List.filter _ _
    apply List.filter_congr
    intro e he
    rw [h2 e he]
    simp
  · show List.filter _ _ = List.filter _ _
    apply List.filter_congr
    intro e he
    rw [h3 e he]
    simp

/-- C10 witness: concrete two-supergraph database. -/
theorem c10_delete_scoped_witness : DeleteFrame "s1" c10Db :=
  c10_delete_scoped "s1" c10Db (by decide) (by decide) (by decide)

end Claims

namespace GraphDb

variable {N K : Type}

theorem DB.ext' (a b : DB) (h1 : a.projects = b.projects) (h2 : a.types = b.types)
    (h3 : a.methods = b.methods) (h4 : a.fields = b.fields)
    (h5 : a.structRels = b.structRels) (h6 : a.sameFqn = b.sameFqn)
    (h7 : a.sameSignature = b.sameSignature) (h8 : a.sameField = b.sameField)
    (h9 : a.typeDiff = b.typeDiff) (h10 : a.methodDiff = b.methodDiff)
    (h11 : a.fieldDiff = b.fieldDiff) (h12 : a.markers = b.markers) : a = b := by
  cases a; cases b; simp_all

theorem filter_mergeGEdge [DecidableEq N] (es : List (GEdge N)) (e : GEdge N)
    (q : GEdge N → Bool) (hq : q e = false) :
    (mergeGEdge es e).filter q = es.filter q := by
  unfold mergeGEdge
  split
  · rfl
  · rw [List.filter_append]
    simp [hq]

theorem filter_mergeDEdge [DecidableEq N] (es : List (DEdge N)) (e : DEdge N)
    (q : DEdge N → Bool) (hq : q e = false) :
    (mergeDEdge es e).filter q = es.filter q := by
  unfold mergeDEdge
  split
  · rfl
  · rw [List.filter_append]
    simp [hq]

theorem filter_alignStage [DecidableEq N] [DecidableEq K] (S : AlignSpec N K)
    (p lrepo rrepo sid : String) (nodes : List N) (es : List (GEdge N))
    (q : GEdge N → Bool) (hq : ∀ x : GEdge N, x.supergraph_id = sid → q x = false) :
    (alignStage S p lrepo rrepo sid nodes es).filter q = es.filter q := by
  unfold alignStage
  generalize alignPairs S p lrepo rrepo nodes = pairs
  induction pairs generalizing es with
  | nil => rfl
  | cons pr rest ih =>
    rw [List.foldl_cons, ih, filter_mergeGEdge _ _ _ (hq _ rfl)]

theorem filter_map_sid (ms : List Marker) (f : Marker → Marker) (sid : String)
    (hsid : ∀ m, (f m).supergraph_id = m.supergraph_id)
    (hfix : ∀ m, ¬ m.supergraph_id = sid → f m = m) :
    (ms.map f).filter (fun m => ¬ m.supergraph_id = sid)
      = ms.filter (fun m => ¬ m.supergraph_id = sid) := by
  induction ms with
  | nil => rfl
  | cons m rest ih =>
    rw [List.map_cons, List.filter_cons, List.filter_cons]
    by_cases hm : m.supergraph_id = sid
    · have hf : (f m).supergraph_id = sid := by rw [hsid m, hm]
      rw [if_neg (by simp [hf]), if_neg (by simp [hm])]
      exact ih
    · rw [hfix m hm, if_pos (by simp [hm]), if_pos (by simp [hm]), ih]

theorem filter_mergeMarker (ms : List Marker) (sid : String) (k : Kind)
    (key : String) (st : Status) :
    (mergeMarker ms sid k key st).filter (fun m => ¬ m.supergraph_id = sid)
      = ms.filter (fun m => ¬ m.supergraph_id = sid) := by
  unfold mergeMarker
  split
  · apply filter_map_sid
    · intro m
      split
      · rfl
      · rfl
    · intro m hm
      rw [if_neg]
      rintro ⟨h1, -⟩
      exact hm h1
  · rw [List.filter_append]
    simp

theorem filter_foldl_mergeMarker {α : Type} (sid : String) (k : Kind)
    (items : List α) (keyf : α → String) (stf : α → Status) (ms : List Marker) :
    (items.foldl (fun ms a => mergeMarker ms sid k (keyf a) (stf a)) ms).filter
        (fun m => ¬ m.supergraph_id = sid)
      = ms.filter (fun m => ¬ m.supergraph_id = sid) := by
  induction items generalizing ms with
  | nil => rfl
  | cons a rest ih =>
    rw [List.foldl_cons, ih, filter_mergeMarker]

theorem filter_markStage [DecidableEq N] [DecidableEq K] (S : AlignSpec N K)
    [∀ l r : N, Decidable (S.same l r)] (p lrepo rrepo sid : String) (k : Kind)
    (nodes : List N) (es : List (GEdge N)) (ms : List Marker) :
    (markStage S p lrepo rrepo sid k nodes es ms).filter
        (fun m => ¬ m.supergraph_id = sid)
      = ms.filter (fun m => ¬ m.supergraph_id = sid) := by
  unfold markStage
  rw [filter_foldl_mergeMarker sid k (addedRows S p lrepo rrepo sid nodes es)
      S.mkey (fun _ => Status.ADDED),
    filter_foldl_mergeMarker sid k (removedRows S p lrepo rrepo sid nodes es)
      S.mkey (fun _ => Status.REMOVED),
    filter_foldl_mergeMarker sid k (matchedRows S p lrepo rrepo sid es)
      (fun pr => S.mkey pr.1)
      (fun pr => if S.same pr.1 pr.2 then Status.UNCHANGED else Status.CHANGED)]

theorem filter_foldl_mergeDEdge [DecidableEq N] {α : Type}
    (items : List α) (ef : α → DEdge N) (ds : List (DEdge N))
    (q : DEdge N → Bool) (hq : ∀ a, q (ef a) = false) :
    (items.foldl (fun ds a => mergeDEdge ds (ef a)) ds).filter q = ds.filter q := by
  induction items generalizing ds with
  | nil => rfl
  | cons a rest ih =>
    rw [List.foldl_cons, ih, filter_mergeDEdge _ _ _ (hq a)]

theorem filter_diffEdgeStage [DecidableEq N] [DecidableEq K] (S : AlignSpec N K)
    (p lrepo rrepo sid : String) (k : Kind) (nodes : List N)
    (es : List (GEdge N)) (ds : List (DEdge N)) (q : DEdge N → Bool)
    (hq : ∀ x : DEdge N, x.supergraph_id = sid → q x = false) :
    (diffEdgeStage S p lrepo rrepo sid k nodes es ds).filter q = ds.filter q := by
  unfold diffEdgeStage
  rw [filter_foldl_mergeDEdge (addedRows S p lrepo rrepo sid nodes es)
      (fun r => ⟨sid, r, ⟨sid, k, S.mkey r⟩⟩) _ q (fun a => hq _ rfl),
    filter_foldl_mergeDEdge (removedRows S p lrepo rrepo sid nodes es)
      (fun l => ⟨sid, l, ⟨sid, k, S.mkey l⟩⟩) _ q (fun a => hq _ rfl)]
  generalize matchedRows S p lrepo rrepo sid es = rows
  induction rows generalizing ds with
  | nil => rfl
  | cons pr rest ih =>
    rw [List.foldl_cons, ih, filter_mergeDEdge _ _ _ (hq _ rfl),
      filter_mergeDEdge _ _ _ (hq _ rfl)]

/-- delete_supergraph is idempotent (the filters are). -/
theorem delete_delete (sid : String) (db : DB) :
    delete_supergraph sid (delete_supergraph sid db) = delete_supergraph sid db := by
  apply DB.ext' <;> simp [delete_supergraph, List.filter_filter]

/-- After superimpose_and_diff, deleting the supergraph returns exactly
the state deletion alone would have produced: the run only MERGEs
sid-tagged edges and markers and only SETs sid-tagged markers. -/
theorem delete_superimpose_delete (p lrepo rrepo sid : String) (db : DB) :
    delete_supergraph sid (superimpose_and_diff p lrepo rrepo sid db)
      = delete_supergraph sid db := by
  apply DB.ext' <;>
    simp only [delete_supergraph, superimpose_and_diff]
  · exact filter_alignStage typeSpec p lrepo rrepo sid db.types db.sameFqn _
      (fun x hx => by simp [hx])
  · exact filter_alignStage methodSpec p lrepo rrepo sid db.methods
      db.sameSignature _ (fun x hx => by simp [hx])
  · exact filter_alignStage fieldSpec p lrepo rrepo sid db.fields db.sameField _
      (fun x hx => by simp [hx])
  · exact filter_diffEdgeStage typeSpec p lrepo rrepo sid Kind.type db.types _
      db.typeDiff _ (fun x hx => by simp [hx])
  · exact filter_diffEdgeStage methodSpec p lrepo rrepo sid Kind.method
      db.methods _ db.methodDiff _ (fun x hx => by simp [hx])
  · exact filter_diffEdgeStage fieldSpec p lrepo rrepo sid Kind.field db.fields _
      db.fieldDiff _ (fun x hx => by simp [hx])
  · rw [filter_markStage, filter_markStage, filter_markStage]

end GraphDb

namespace Claims

open GraphDb

/-- C2: the diff flow (delete_supergraph then superimpose_and_diff, as
every caller runs it) first removes every alignment edge and DiffMarker
of the supergraph_id — after deletion no sid-tagged SAME_FQN,
SAME_SIGNATURE, SAME_FIELD edge or DiffMarker remains — and the flow is
idempotent: with unchanged input graphs, running it a second time
reproduces the entire first-run state, in particular an identical marker
set. -/
theorem c2_full_recompute_idempotent (p lrepo rrepo sid : String) :
    (∀ db : DB,
      (delete_supergraph sid db).sameFqn.filter
        (fun e => e.supergraph_id = sid) = [] ∧
      (delete_supergraph sid db).sameSignature.filter
        (fun e => e.supergraph_id = sid) = [] ∧
      (delete_supergraph sid db).sameField.filter
        (fun e => e.supergraph_id = sid) = [] ∧
      (delete_supergraph sid db).markers.filter
        (fun m => m.supergraph_id = sid) = []) ∧
    (∀ db : DB,
      run_diff p lrepo rrepo sid (run_diff p lrepo rrepo sid db)
        = run_diff p lrepo rrepo sid db) := by
  constructor
  · intro db
    refine ⟨?_, ?_, ?_, ?_⟩ <;>
      · rw [List.filter_eq_nil_iff]
        intro e he
        rw [delete_supergraph] at he
        simp only [List.mem_filter, decide_eq_true_eq] at he
        simp [he.2]
  · intro db
    show superimpose_and_diff p lrepo rrepo sid
        (delete_supergraph sid (superimpose_and_diff p lrepo rrepo sid
          (delete_supergraph sid db)))
      = superimpose_and_diff p lrepo rrepo sid (delete_supergraph sid db)
    rw [delete_superimpose_delete, delete_delete]

end Claims

namespace GraphDb

variable {N K : Type}

theorem mergeGEdge_not_mem [DecidableEq N] {es : List (GEdge N)} {e : GEdge N}
    (h : e ∉ es) : mergeGEdge es e = es ++ [e] := by
  unfold mergeGEdge
  rw [if_neg h]

theorem mergeMarker_fresh {ms : List Marker} {sid : String} {k : Kind}
    {key : String} {st : Status}
    (h : ∀ m ∈ ms, ¬ (m.supergraph_id = sid ∧ m.kind = k ∧ m.key = key)) :
    mergeMarker ms sid k key st =
      ms ++ [{ supergraph_id := sid, kind := k, key := key, status := st,
               fqn := key }] := by
  unfold mergeMarker
  rw [if_neg]
  simp only [List.any_eq_true, decide_eq_true_eq, not_exists]
  intro m
  rintro ⟨hm, hcond⟩
  exact h m hm hcond

theorem foldl_mergeGEdge_append [DecidableEq N] :
    ∀ (new es : List (GEdge N)), (∀ e ∈ new, e ∉ es) → new.Nodup →
      new.foldl mergeGEdge es = es ++ new := by
  intro new
  induction new with
  | nil => intro es _ _; simp
  | cons e rest ih =>
    intro es hfresh hnd
    rw [List.foldl_cons, mergeGEdge_not_mem (hfresh e (List.mem_cons_self e rest)),
      ih (es ++ [e]) ?_ (List.nodup_cons.mp hnd).2, List.append_assoc,
      List.singleton_append]
    intro x hx
    simp only [List.mem_append, List.mem_singleton]
    rintro (h | rfl)
    · exact hfresh x (List.mem_cons_of_mem e hx) h
    · exact (List.nodup_cons.mp hnd).1 hx

theorem mem_sideNodes {S : AlignSpec N K} {p repo : String} {nodes : List N}
    {n : N} :
    n ∈ sideNodes S p repo nodes ↔
      n ∈ nodes ∧ S.project n = p ∧ S.repo n = repo := by
  unfold sideNodes
  simp [List.mem_filter]

theorem mem_alignPairs [DecidableEq K] {S : AlignSpec N K}
    {p lrepo rrepo : String} {nodes : List N} {pr : N × N} :
    pr ∈ alignPairs S p lrepo rrepo nodes ↔
      pr.1 ∈ sideNodes S p lrepo nodes ∧ pr.2 ∈ sideNodes S p rrepo nodes ∧
        S.akey pr.2 = S.akey pr.1 := by
  unfold alignPairs
  simp only [List.mem_flatMap, List.mem_map, List.mem_filter,
    decide_eq_true_eq]
  constructor
  · rintro ⟨l, hl, r, ⟨hr, hk⟩, rfl⟩
    exact ⟨hl, hr, hk⟩
  · rintro ⟨h1, h2, h3⟩
    exact ⟨pr.1, h1, pr.2, ⟨h2, h3⟩, rfl⟩

theorem filterMap_all_some {α β : Type} (l : List α) (g : α → β) :
    l.filterMap (fun a => some (g a)) = l.map g := by
  induction l with
  | nil => rfl
  | cons a rest ih => simp [List.filterMap_cons, ih]

theorem filterMap_id_of {α : Type} (l : List α) (f : α → Option α)
    (h : ∀ a ∈ l, f a = some a) : l.filterMap f = l := by
  induction l with
  | nil => rfl
  | cons a rest ih =>
    rw [List.filterMap_cons, h a (List.mem_cons_self a rest)]
    rw [ih fun x hx => h x (List.mem_cons_of_mem a hx)]

theorem filterMap_option_const {α β γ : Type} (l : List α) (g : α → Option γ)
    (h : α → β) :
    l.filterMap (fun a => (g a).map fun _ => h a)
      = (l.filter fun a => (g a).isSome).map h := by
  induction l with
  | nil => rfl
  | cons a rest ih =>
    rw [List.filterMap_cons, List.filter_cons]
    cases hg : g a with
    | none => simp [hg, ih]
    | some c => simp [hg, ih]

theorem nodup_map_of {α β γ : Type} (L : List α) (f : α → β) (g : α → γ)
    (hf : (L.map f).Nodup)
    (h : ∀ a ∈ L, ∀ b ∈ L, g a = g b → f a = f b) : (L.map g).Nodup := by
  induction L with
  | nil => exact List.nodup_nil
  | cons a rest ih =>
    rw [List.map_cons, List.nodup_cons]
    rw [List.map_cons, List.nodup_cons] at hf
    constructor
    · intro hmem
      obtain ⟨b, hb, hgb⟩ := List.mem_map.mp hmem
      exact hf.1 (List.mem_map.mpr ⟨b, hb,
        (h b (List.mem_cons_of_mem a hb) a (List.mem_cons_self a rest) hgb)⟩)
    · exact ih hf.2 fun x hx y hy =>
        h x (List.mem_cons_of_mem a hx) y (List.mem_cons_of_mem a hy)

theorem filter_eq_find_toList {α β : Type} [DecidableEq β] (R : List α)
    (f : α → β) (hR : (R.map f).Nodup) (key : β) :
    R.filter (fun r => f r = key) = (R.find? fun r => f r = key).toList := by
  induction R with
  | nil => rfl
  | cons r rest ih =>
    rw [List.map_cons, List.nodup_cons] at hR
    rw [List.filter_cons, List.find?_cons]
    by_cases hr : f r = key
    · rw [if_pos (by simp [hr])]
      have : rest.filter (fun x => f x = key) = [] := by
        rw [List.filter_eq_nil_iff]
        intro x hx
        simp only [decide_eq_true_eq]
        intro hfx
        exact hR.1 (List.mem_map.mpr ⟨x, hx, by rw [hfx, hr]⟩)
      rw [this]
      simp [hr]
    · rw [if_neg (by simp [hr])]
      rw [ih hR.2]
      simp [hr]

end GraphDb

namespace GraphDb

variable {N K : Type}

theorem flatMap_option_toList {α β : Type} (l : List α) (g : α → Option β) :
    (l.flatMap fun a => (g a).toList) = l.filterMap g := by
  induction l with
  | nil => rfl
  | cons a rest ih =>
    rw [List.flatMap_cons, List.filterMap_cons]
    cases g a <;> simp [ih]

theorem alignPairs_eq_filterMap [DecidableEq K] (S : AlignSpec N K)
    (p lrepo rrepo : String) (nodes : List N)
    (hR : ((sideNodes S p rrepo nodes).map S.akey).Nodup) :
    alignPairs S p lrepo rrepo nodes =
      (sideNodes S p lrepo nodes).filterMap fun l =>
        ((sideNodes S p rrepo nodes).find? fun r => S.akey r = S.akey l).map
          fun r => (l, r) := by
  unfold alignPairs
  have h : ∀ l : N,
      ((sideNodes S p rrepo nodes).filter fun r => S.akey r = S.akey l).map
          (fun r => (l, r))
        = (((sideNodes S p rrepo nodes).find? fun r =>
            S.akey r = S.akey l).map fun r => (l, r)).toList := by
    intro l
    rw [filter_eq_find_toList _ S.akey hR (S.akey l)]
    cases (sideNodes S p rrepo nodes).find? fun r => S.akey r = S.akey l <;> rfl
  simp only [h]
  exact flatMap_option_toList _ _

theorem alignPairs_nodup [DecidableEq K] (S : AlignSpec N K)
    (p lrepo rrepo : String) (nodes : List N)
    (hL : ((sideNodes S p lrepo nodes).map S.akey).Nodup)
    (hR : ((sideNodes S p rrepo nodes).map S.akey).Nodup) :
    (alignPairs S p lrepo rrepo nodes).Nodup := by
  unfold alignPairs
  rw [List.nodup_flatMap]
  constructor
  · intro l _
    exact ((hR.of_map _).filter _).map fun r1 r2 h =>
      ((Prod.mk.injEq _ _ _ _).mp h).2
  · refine (hL.of_map _).imp ?_
    intro a b hne x hxa hxb
    obtain ⟨r1, -, hx1⟩ := List.mem_map.mp hxa
    obtain ⟨r2, -, hx2⟩ := List.mem_map.mp hxb
    rw [← hx1] at hx2
    exact hne ((Prod.mk.injEq _ _ _ _).mp hx2).1.symm

theorem alignStage_eq [DecidableEq N] [DecidableEq K] (S : AlignSpec N K)
    (p lrepo rrepo sid : String) (nodes : List N) (es : List (GEdge N))
    (hes : ∀ e ∈ es, ¬ e.supergraph_id = sid)
    (hL : ((sideNodes S p lrepo nodes).map S.akey).Nodup)
    (hR : ((sideNodes S p rrepo nodes).map S.akey).Nodup) :
    alignStage S p lrepo rrepo sid nodes es =
      es ++ (alignPairs S p lrepo rrepo nodes).map
        fun pr => ⟨sid, pr.1, pr.2⟩ := by
  unfold alignStage
  rw [← List.foldl_map (fun pr : N × N => (⟨sid, pr.1, pr.2⟩ : GEdge N))
    mergeGEdge]
  apply foldl_mergeGEdge_append
  · intro e he hmem
    obtain ⟨pr, -, rfl⟩ := List.mem_map.mp he
    exact hes _ hmem rfl
  · exact (alignPairs_nodup S p lrepo rrepo nodes hL hR).map
      fun pr1 pr2 h => by
        have h1 := (GEdge.mk.injEq _ _ _ _ _ _).mp h
        exact Prod.ext h1.2.1 h1.2.2

theorem matchedRows_eq [DecidableEq N] [DecidableEq K] (S : AlignSpec N K)
    (p lrepo rrepo sid : String) (nodes : List N) (es : List (GEdge N))
    (hes : ∀ e ∈ es, ¬ e.supergraph_id = sid) :
    matchedRows S p lrepo rrepo sid
        (es ++ (alignPairs S p lrepo rrepo nodes).map
          fun pr => ⟨sid, pr.1, pr.2⟩)
      = alignPairs S p lrepo rrepo nodes := by
  unfold matchedRows
  rw [List.filterMap_append]
  have h1 : List.filterMap (fun e : GEdge N =>
      if e.supergraph_id = sid ∧ S.project e.src = p ∧ S.repo e.src = lrepo ∧
         S.project e.dst = p ∧ S.repo e.dst = rrepo then
        some (e.src, e.dst)
      else none) es = [] := by
    rw [List.filterMap_eq_nil_iff]
    intro e he
    rw [if_neg]
    rintro ⟨hsid, -⟩
    exact hes e he hsid
  rw [h1, List.nil_append, List.filterMap_map]
  apply filterMap_id_of
  intro pr hpr
  obtain ⟨ha, hb, -⟩ := mem_alignPairs.mp hpr
  obtain ⟨-, hp1, hr1⟩ := mem_sideNodes.mp ha
  obtain ⟨-, hp2, hr2⟩ := mem_sideNodes.mp hb
  show (if _ then _ else _) = _
  rw [if_pos ⟨rfl, hp1, hr1, hp2, hr2⟩]

end GraphDb

namespace GraphDb

variable {N K : Type}

theorem removedRows_eq [DecidableEq N] [DecidableEq K] (S : AlignSpec N K)
    (p lrepo rrepo sid : String) (nodes : List N) (es : List (GEdge N))
    (hes : ∀ e ∈ es, ¬ e.supergraph_id = sid) :
    removedRows S p lrepo rrepo sid nodes
        (es ++ (alignPairs S p lrepo rrepo nodes).map
          fun pr => ⟨sid, pr.1, pr.2⟩)
      = (sideNodes S p lrepo nodes).filter fun l =>
          ¬ (sideNodes S p rrepo nodes).any fun r => S.akey r = S.akey l := by
  unfold removedRows
  apply List.filter_congr
  intro l hl
  apply decide_eq_decide.mpr
  apply not_congr
  rw [List.any_append, Bool.or_eq_true]
  simp only [List.any_eq_true, decide_eq_true_eq, List.mem_map]
  constructor
  · rintro (⟨e, he, hsid, -⟩ | ⟨e, ⟨pr, hpr, rfl⟩, -, hsrc, hdp, hdr⟩)
    · exact absurd hsid (hes e he)
    · obtain ⟨h1, h2, h3⟩ := mem_alignPairs.mp hpr
      exact ⟨pr.2, h2, h3.trans (congrArg S.akey hsrc)⟩
  · rintro ⟨r, hr, hk⟩
    right
    refine ⟨⟨sid, l, r⟩,
      ⟨(l, r), mem_alignPairs.mpr ⟨hl, hr, hk⟩, rfl⟩, rfl, rfl,
      (mem_sideNodes.mp hr).2.1, (mem_sideNodes.mp hr).2.2⟩

theorem addedRows_eq [DecidableEq N] [DecidableEq K] (S : AlignSpec N K)
    (p lrepo rrepo sid : String) (nodes : List N) (es : List (GEdge N))
    (hes : ∀ e ∈ es, ¬ e.supergraph_id = sid) :
    addedRows S p lrepo rrepo sid nodes
        (es ++ (alignPairs S p lrepo rrepo nodes).map
          fun pr => ⟨sid, pr.1, pr.2⟩)
      = (sideNodes S p rrepo nodes).filter fun r =>
          ¬ (sideNodes S p lrepo nodes).any fun l => S.akey l = S.akey r := by
  unfold addedRows
  apply List.filter_congr
  intro r hr
  apply decide_eq_decide.mpr
  apply not_congr
  rw [List.any_append, Bool.or_eq_true]
  simp only [List.any_eq_true, decide_eq_true_eq, List.mem_map]
  constructor
  · rintro (⟨e, he, hsid, -⟩ | ⟨e, ⟨pr, hpr, rfl⟩, -, hdst, hsp, hsr, hsk⟩)
    · exact absurd hsid (hes e he)
    · obtain ⟨h1, h2, h3⟩ := mem_alignPairs.mp hpr
      exact ⟨pr.1, h1, hsk⟩
  · rintro ⟨l, hl, hk⟩
    right
    refine ⟨⟨sid, l, r⟩,
      ⟨(l, r), mem_alignPairs.mpr ⟨hl, hr, hk.symm⟩, rfl⟩, rfl, rfl,
      (mem_sideNodes.mp hl).2.1, (mem_sideNodes.mp hl).2.2, hk⟩

end GraphDb

namespace GraphDb

variable {N K : Type}

theorem foldl_mergeMarker_append {α : Type} (sid : String) (k : Kind) :
    ∀ (items : List α) (keyf : α → String) (stf : α → Status) (ms : List Marker),
      (∀ a ∈ items, ∀ m ∈ ms,
        ¬ (m.supergraph_id = sid ∧ m.kind = k ∧ m.key = keyf a)) →
      (items.map keyf).Nodup →
      items.foldl (fun ms a => mergeMarker ms sid k (keyf a) (stf a)) ms
        = ms ++ items.map fun a =>
            { supergraph_id := sid, kind := k, key := keyf a, status := stf a,
              fqn := keyf a } := by
  intro items
  induction items with
  | nil => intro keyf stf ms _ _; simp
  | cons a rest ih =>
    intro keyf stf ms hfresh hnd
    rw [List.map_cons, List.nodup_cons] at hnd
    rw [List.foldl_cons,
      mergeMarker_fresh (hfresh a (List.mem_cons_self a rest)),
      ih keyf stf _ ?_ hnd.2, List.append_assoc, List.singleton_append,
      List.map_cons]
    intro x hx m hm
    rcases List.mem_append.mp hm with hm | hm
    · exact hfresh x (List.mem_cons_of_mem a hx) m hm
    · rw [List.mem_singleton] at hm
      subst hm
      rintro ⟨-, -, hkey⟩
      exact hnd.1 (List.mem_map.mpr ⟨x, hx, hkey.symm⟩)

theorem nodup_side_mkeys [DecidableEq K] (S : AlignSpec N K)
    {side : List N}
    (h : (side.map S.akey).Nodup)
    (hcoll : ∀ a ∈ side, ∀ b ∈ side, S.mkey a = S.mkey b → S.akey a = S.akey b) :
    (side.map S.mkey).Nodup :=
  nodup_map_of side S.akey S.mkey h hcoll

theorem nodup_matched_keys [DecidableEq K] (S : AlignSpec N K)
    (p lrepo rrepo : String) (nodes : List N)
    (hL : ((sideNodes S p lrepo nodes).map S.akey).Nodup)
    (hR : ((sideNodes S p rrepo nodes).map S.akey).Nodup)
    (hcollL : ∀ a ∈ sideNodes S p lrepo nodes, ∀ b ∈ sideNodes S p lrepo nodes,
      S.mkey a = S.mkey b → S.akey a = S.akey b) :
    ((alignPairs S p lrepo rrepo nodes).map fun pr => S.mkey pr.1).Nodup := by
  rw [alignPairs_eq_filterMap S p lrepo rrepo nodes hR, List.map_filterMap]
  have h : ∀ l : N,
      ((((sideNodes S p rrepo nodes).find? fun r => S.akey r = S.akey l).map
        fun r => (l, r)).map fun pr : N × N => S.mkey pr.1)
      = (((sideNodes S p rrepo nodes).find? fun r =>
          S.akey r = S.akey l).map fun _ => S.mkey l) := by
    intro l
    cases (sideNodes S p rrepo nodes).find? fun r => S.akey r = S.akey l <;> rfl
  simp only [h]
  rw [filterMap_option_const]
  exact (nodup_side_mkeys S hL hcollL).sublist ((List.filter_sublist _).map _)

end GraphDb

namespace GraphDb

variable {N K : Type}

theorem markStage_eq [DecidableEq N] [DecidableEq K] (S : AlignSpec N K)
    [∀ l r : N, Decidable (S.same l r)]
    (p lrepo rrepo sid : String) (k : Kind) (nodes : List N)
    (es : List (GEdge N)) (ms : List Marker)
    (hes : ∀ e ∈ es, ¬ e.supergraph_id = sid)
    (hms : ∀ m ∈ ms, ¬ (m.supergraph_id = sid ∧ m.kind = k))
    (hL : ((sideNodes S p lrepo nodes).map S.akey).Nodup)
    (hR : ((sideNodes S p rrepo nodes).map S.akey).Nodup)
    (hcoll : ∀ a ∈ sideNodes S p lrepo nodes ++ sideNodes S p rrepo nodes,
             ∀ b ∈ sideNodes S p lrepo nodes ++ sideNodes S p rrepo nodes,
             S.mkey a = S.mkey b → S.akey a = S.akey b) :
    markStage S p lrepo rrepo sid k nodes
        (alignStage S p lrepo rrepo sid nodes es) ms
      = ms ++ partitionMarkers S p lrepo rrepo sid k nodes := by
  have hcollL : ∀ a ∈ sideNodes S p lrepo nodes,
      ∀ b ∈ sideNodes S p lrepo nodes,
      S.mkey a = S.mkey b → S.akey a = S.akey b := fun a ha b hb =>
    hcoll a (List.mem_append.mpr (Or.inl ha)) b (List.mem_append.mpr (Or.inl hb))
  have hcollR : ∀ a ∈ sideNodes S p rrepo nodes,
      ∀ b ∈ sideNodes S p rrepo nodes,
      S.mkey a = S.mkey b → S.akey a = S.akey b := fun a ha b hb =>
    hcoll a (List.mem_append.mpr (Or.inr ha)) b (List.mem_append.mpr (Or.inr hb))
  have hcollLR : ∀ a ∈ sideNodes S p lrepo nodes,
      ∀ b ∈ sideNodes S p rrepo nodes,
      S.mkey a = S.mkey b → S.akey a = S.akey b := fun a ha b hb =>
    hcoll a (List.mem_append.mpr (Or.inl ha)) b (List.mem_append.mpr (Or.inr hb))
  have hRem : ∀ l ∈ (sideNodes S p lrepo nodes).filter fun l =>
      ¬ (sideNodes S p rrepo nodes).any fun r => S.akey r = S.akey l,
      l ∈ sideNodes S p lrepo nodes ∧
        ∀ r ∈ sideNodes S p rrepo nodes, ¬ S.akey r = S.akey l := by
    intro l hl
    rw [List.mem_filter] at hl
    refine ⟨hl.1, ?_⟩
    have := hl.2
    simp only [decide_eq_true_eq, List.any_eq_true, not_exists] at this
    intro r hr
    exact fun hk => this r ⟨hr, by simp [hk]⟩
  have hAdd : ∀ r ∈ (sideNodes S p rrepo nodes).filter fun r =>
      ¬ (sideNodes S p lrepo nodes).any fun l => S.akey l = S.akey r,
      r ∈ sideNodes S p rrepo nodes ∧
        ∀ l ∈ sideNodes S p lrepo nodes, ¬ S.akey l = S.akey r := by
    intro r hr
    rw [List.mem_filter] at hr
    refine ⟨hr.1, ?_⟩
    have := hr.2
    simp only [decide_eq_true_eq, List.any_eq_true, not_exists] at this
    intro l hl
    exact fun hk => this l ⟨hl, by simp [hk]⟩
  unfold markStage
  rw [alignStage_eq S p lrepo rrepo sid nodes es hes hL hR,
    matchedRows_eq S p lrepo rrepo sid nodes es hes,
    removedRows_eq S p lrepo rrepo sid nodes es hes,
    addedRows_eq S p lrepo rrepo sid nodes es hes]
  rw [foldl_mergeMarker_append sid k (alignPairs S p lrepo rrepo nodes)
    (fun pr => S.mkey pr.1)
    (fun pr => if S.same pr.1 pr.2 then Status.UNCHANGED else Status.CHANGED)
    ms
    (fun pr _ m hm => fun h => hms m hm ⟨h.1, h.2.1⟩)
    (nodup_matched_keys S p lrepo rrepo nodes hL hR hcollL)]
  simp only []
  rw [foldl_mergeMarker_append sid k _ S.mkey (fun _ => Status.REMOVED) _
    ?fresh2 ?nodup2]
  rw [foldl_mergeMarker_append sid k _ S.mkey (fun _ => Status.ADDED) _
    ?fresh3 ?nodup3]
  case fresh2 =>
    intro l hl m hm
    obtain ⟨hlL, hlNo⟩ := hRem l hl
    rcases List.mem_append.mp hm with hm | hm
    · exact fun h => hms m hm ⟨h.1, h.2.1⟩
    · obtain ⟨pr, hpr, rfl⟩ := List.mem_map.mp hm
      rintro ⟨-, -, hkey⟩
      obtain ⟨h1, h2, h3⟩ := mem_alignPairs.mp hpr
      exact hlNo pr.2 h2 (h3.trans (hcollL pr.1 h1 l hlL hkey))
  case nodup2 =>
    exact (nodup_side_mkeys S hL hcollL).sublist ((List.filter_sublist _).map _)
  case fresh3 =>
    intro r hr m hm
    obtain ⟨hrR, hrNo⟩ := hAdd r hr
    rcases List.mem_append.mp hm with hm | hm
    · rcases List.mem_append.mp hm with hm | hm
      · exact fun h => hms m hm ⟨h.1, h.2.1⟩
      · obtain ⟨pr, hpr, rfl⟩ := List.mem_map.mp hm
        rintro ⟨-, -, hkey⟩
        obtain ⟨h1, h2, h3⟩ := mem_alignPairs.mp hpr
        exact hrNo pr.1 h1 (hcollLR pr.1 h1 r hrR hkey)
    · obtain ⟨l, hl, rfl⟩ := List.mem_map.mp hm
      obtain ⟨hlL, hlNo⟩ := hRem l hl
      rintro ⟨-, -, hkey⟩
      exact hrNo l hlL (hcollLR l hlL r hrR hkey)
  case nodup3 =>
    exact (nodup_side_mkeys S hR hcollR).sublist ((List.filter_sublist _).map _)
  unfold partitionMarkers
  simp only [List.append_assoc]

end GraphDb

namespace GraphDb

variable {N K : Type}

theorem mem_partitionMarkers [DecidableEq K] {S : AlignSpec N K}
    [∀ l r : N, Decidable (S.same l r)]
    {p lrepo rrepo sid : String} {k : Kind} {nodes : List N} {m : Marker}
    (h : m ∈ partitionMarkers S p lrepo rrepo sid k nodes) :
    m.supergraph_id = sid ∧ m.kind = k := by
  unfold partitionMarkers at h
  rcases List.mem_append.mp h with h | h
  · rcases List.mem_append.mp h with h | h
    · obtain ⟨pr, -, rfl⟩ := List.mem_map.mp h
      exact ⟨rfl, rfl⟩
    · obtain ⟨l, -, rfl⟩ := List.mem_map.mp h
      exact ⟨rfl, rfl⟩
  · obtain ⟨r, -, rfl⟩ := List.mem_map.mp h
    exact ⟨rfl, rfl⟩

theorem run_diff_markers_eq (p lrepo rrepo sid : String) (db : DB)
    (hTL : ((sideNodes typeSpec p lrepo db.types).map typeSpec.akey).Nodup)
    (hTR : ((sideNodes typeSpec p rrepo db.types).map typeSpec.akey).Nodup)
    (hML : ((sideNodes methodSpec p lrepo db.methods).map methodSpec.akey).Nodup)
    (hMR : ((sideNodes methodSpec p rrepo db.methods).map methodSpec.akey).Nodup)
    (hFL : ((sideNodes fieldSpec p lrepo db.fields).map fieldSpec.akey).Nodup)
    (hFR : ((sideNodes fieldSpec p rrepo db.fields).map fieldSpec.akey).Nodup)
    (hMcoll : ∀ a ∈ sideNodes methodSpec p lrepo db.methods
        ++ sideNodes methodSpec p rrepo db.methods,
      ∀ b ∈ sideNodes methodSpec p lrepo db.methods
        ++ sideNodes methodSpec p rrepo db.methods,
      methodSpec.mkey a = methodSpec.mkey b →
        methodSpec.akey a = methodSpec.akey b)
    (hFcoll : ∀ a ∈ sideNodes fieldSpec p lrepo db.fields
        ++ sideNodes fieldSpec p rrepo db.fields,
      ∀ b ∈ sideNodes fieldSpec p lrepo db.fields
        ++ sideNodes fieldSpec p rrepo db.fields,
      fieldSpec.mkey a = fieldSpec.mkey b →
        fieldSpec.akey a = fieldSpec.akey b) :
    (run_diff p lrepo rrepo sid db).markers =
      db.markers.filter (fun m => ¬ m.supergraph_id = sid)
        ++ partitionMarkers typeSpec p lrepo rrepo sid Kind.type db.types
        ++ partitionMarkers methodSpec p lrepo rrepo sid Kind.method db.methods
        ++ partitionMarkers fieldSpec p lrepo rrepo sid Kind.field db.fields := by
  have hbase : ∀ m ∈ db.markers.filter (fun m => ¬ m.supergraph_id = sid),
      ¬ m.supergraph_id = sid := by
    intro m hm
    have := (List.mem_filter.mp hm).2
    simpa using this
  have hesT : ∀ e ∈ db.sameFqn.filter (fun e => ¬ e.supergraph_id = sid),
      ¬ e.supergraph_id = sid := by
    intro e he
    have := (List.mem_filter.mp he).2
    simpa using this
  have hesM : ∀ e ∈ db.sameSignature.filter (fun e => ¬ e.supergraph_id = sid),
      ¬ e.supergraph_id = sid := by
    intro e he
    have := (List.mem_filter.mp he).2
    simpa using this
  have hesF : ∀ e ∈ db.sameField.filter (fun e => ¬ e.supergraph_id = sid),
      ¬ e.supergraph_id = sid := by
    intro e he
    have := (List.mem_filter.mp he).2
    simpa using this
  show markStage fieldSpec p lrepo rrepo sid Kind.field db.fields
      (alignStage fieldSpec p lrepo rrepo sid db.fields
        (db.sameField.filter fun e => ¬ e.supergraph_id = sid))
      (markStage methodSpec p lrepo rrepo sid Kind.method db.methods
        (alignStage methodSpec p lrepo rrepo sid db.methods
          (db.sameSignature.filter fun e => ¬ e.supergraph_id = sid))
        (markStage typeSpec p lrepo rrepo sid Kind.type db.types
          (alignStage typeSpec p lrepo rrepo sid db.types
            (db.sameFqn.filter fun e => ¬ e.supergraph_id = sid))
          (db.markers.filter fun m => ¬ m.supergraph_id = sid))) = _
  rw [markStage_eq typeSpec p lrepo rrepo sid Kind.type db.types
    (db.sameFqn.filter fun e => ¬ e.supergraph_id = sid) _ hesT
    (fun m hm h => hbase m hm h.1) hTL hTR
    (fun a _ b _ h => h)]
  rw [markStage_eq methodSpec p lrepo rrepo sid Kind.method db.methods
    (db.sameSignature.filter fun e => ¬ e.supergraph_id = sid) _ hesM
    ?hmsM hML hMR hMcoll]
  rw [markStage_eq fieldSpec p lrepo rrepo sid Kind.field db.fields
    (db.sameField.filter fun e => ¬ e.supergraph_id = sid) _ hesF
    ?hmsF hFL hFR hFcoll]
  case hmsM =>
    intro m hm
    rcases List.mem_append.mp hm with hm | hm
    · exact fun h => hbase m hm h.1
    · rintro ⟨-, hk⟩
      rw [(mem_partitionMarkers hm).2] at hk
      exact Kind.noConfusion hk
  case hmsF =>
    intro m hm
    rcases List.mem_append.mp hm with hm | hm
    · rcases List.mem_append.mp hm with hm | hm
      · exact fun h => hbase m hm h.1
      · rintro ⟨-, hk⟩
        rw [(mem_partitionMarkers hm).2] at hk
        exact Kind.noConfusion hk
    · rintro ⟨-, hk⟩
      rw [(mem_partitionMarkers hm).2] at hk
      exact Kind.noConfusion hk

end GraphDb

namespace GraphDb

variable {N K : Type}

theorem partition_spec [DecidableEq K] (S : AlignSpec N K)
    [∀ l r : N, Decidable (S.same l r)]
    (p lrepo rrepo sid : String) (k : Kind) (nodes : List N)
    (hL : ((sideNodes S p lrepo nodes).map S.akey).Nodup)
    (hR : ((sideNodes S p rrepo nodes).map S.akey).Nodup)
    (hmk : ∀ n₁ n₂ : N, S.akey n₁ = S.akey n₂ → S.mkey n₁ = S.mkey n₂)
    (hcoll : ∀ a ∈ sideNodes S p lrepo nodes ++ sideNodes S p rrepo nodes,
             ∀ b ∈ sideNodes S p lrepo nodes ++ sideNodes S p rrepo nodes,
             S.mkey a = S.mkey b → S.akey a = S.akey b) :
    specCompleteClassification S (sideNodes S p lrepo nodes)
      (sideNodes S p rrepo nodes)
      (partitionMarkers S p lrepo rrepo sid k nodes) := by
  have hcollL : ∀ a ∈ sideNodes S p lrepo nodes,
      ∀ b ∈ sideNodes S p lrepo nodes,
      S.mkey a = S.mkey b → S.akey a = S.akey b := fun a ha b hb =>
    hcoll a (List.mem_append.mpr (Or.inl ha)) b (List.mem_append.mpr (Or.inl hb))
  have hcollR : ∀ a ∈ sideNodes S p rrepo nodes,
      ∀ b ∈ sideNodes S p rrepo nodes,
      S.mkey a = S.mkey b → S.akey a = S.akey b := fun a ha b hb =>
    hcoll a (List.mem_append.mpr (Or.inr ha)) b (List.mem_append.mpr (Or.inr hb))
  have hcollLR : ∀ a ∈ sideNodes S p lrepo nodes,
      ∀ b ∈ sideNodes S p rrepo nodes,
      S.mkey a = S.mkey b → S.akey a = S.akey b := fun a ha b hb =>
    hcoll a (List.mem_append.mpr (Or.inl ha)) b (List.mem_append.mpr (Or.inr hb))
  have hRem : ∀ l ∈ (sideNodes S p lrepo nodes).filter fun l =>
      ¬ (sideNodes S p rrepo nodes).any fun r => S.akey r = S.akey l,
      l ∈ sideNodes S p lrepo nodes ∧
        ∀ r ∈ sideNodes S p rrepo nodes, ¬ S.akey r = S.akey l := by
    intro l hl
    rw [List.mem_filter] at hl
    refine ⟨hl.1, ?_⟩
    have := hl.2
    simp only [decide_eq_true_eq, List.any_eq_true, not_exists] at this
    intro r hr
    exact fun hk => this r ⟨hr, by simp [hk]⟩
  have hAdd : ∀ r ∈ (sideNodes S p rrepo nodes).filter fun r =>
      ¬ (sideNodes S p lrepo nodes).any fun l => S.akey l = S.akey r,
      r ∈ sideNodes S p rrepo nodes ∧
        ∀ l ∈ sideNodes S p lrepo nodes, ¬ S.akey l = S.akey r := by
    intro r hr
    rw [List.mem_filter] at hr
    refine ⟨hr.1, ?_⟩
    have := hr.2
    simp only [decide_eq_true_eq, List.any_eq_true, not_exists] at this
    intro l hl
    exact fun hk => this l ⟨hl, by simp [hk]⟩
  have toRem : ∀ l ∈ sideNodes S p lrepo nodes,
      (∀ r ∈ sideNodes S p rrepo nodes, ¬ S.akey r = S.akey l) →
      l ∈ (sideNodes S p lrepo nodes).filter fun l =>
        ¬ (sideNodes S p rrepo nodes).any fun r => S.akey r = S.akey l := by
    intro l hl h
    rw [List.mem_filter]
    refine ⟨hl, ?_⟩
    simp only [decide_eq_true_eq, List.any_eq_true, not_exists]
    rintro r ⟨hr, hk⟩
    exact h r hr (by simpa using hk)
  have toAdd : ∀ r ∈ sideNodes S p rrepo nodes,
      (∀ l ∈ sideNodes S p lrepo nodes, ¬ S.akey l = S.akey r) →
      r ∈ (sideNodes S p rrepo nodes).filter fun r =>
        ¬ (sideNodes S p lrepo nodes).any fun l => S.akey l = S.akey r := by
    intro r hr h
    rw [List.mem_filter]
    refine ⟨hr, ?_⟩
    simp only [decide_eq_true_eq, List.any_eq_true, not_exists]
    rintro l ⟨hl, hk⟩
    exact h l hl (by simpa using hk)
  unfold specCompleteClassification partitionMarkers
  simp only [List.map_append, List.map_map]
  refine ⟨?_, ?_, ?_, ?_, ?_⟩
  · -- keys pairwise distinct
    rw [List.nodup_append, List.nodup_append]
    refine ⟨⟨nodup_matched_keys S p lrepo rrepo nodes hL hR hcollL,
      (nodup_side_mkeys S hL hcollL).sublist ((List.filter_sublist _).map _),
      ?_⟩,
      (nodup_side_mkeys S hR hcollR).sublist ((List.filter_sublist _).map _),
      ?_⟩
    · -- matched keys disjoint from removed keys
      intro s hsA hsB
      obtain ⟨pr, hpr, hk1⟩ := List.mem_map.mp hsA
      obtain ⟨l, hl, hk2⟩ := List.mem_map.mp hsB
      obtain ⟨h1, h2, h3⟩ := mem_alignPairs.mp hpr
      obtain ⟨hlL, hlNo⟩ := hRem l hl
      have : S.mkey pr.1 = S.mkey l := by
        rw [show S.mkey pr.1 = s from hk1, show S.mkey l = s from hk2]
      exact hlNo pr.2 h2 (h3.trans (hcollL pr.1 h1 l hlL this))
    · -- left keys disjoint from added keys
      intro s hsAB hsC
      obtain ⟨r, hr, hk3⟩ := List.mem_map.mp hsC
      obtain ⟨hrR, hrNo⟩ := hAdd r hr
      rcases List.mem_append.mp hsAB with hsA | hsB
      · obtain ⟨pr, hpr, hk1⟩ := List.mem_map.mp hsA
        obtain ⟨h1, h2, h3⟩ := mem_alignPairs.mp hpr
        have : S.mkey pr.1 = S.mkey r := by
          rw [show S.mkey pr.1 = s from hk1, show S.mkey r = s from hk3]
        exact hrNo pr.1 h1 (hcollLR pr.1 h1 r hrR this)
      · obtain ⟨l, hl, hk2⟩ := List.mem_map.mp hsB
        obtain ⟨hlL, hlNo⟩ := hRem l hl
        have : S.mkey l = S.mkey r := by
          rw [show S.mkey l = s from hk2, show S.mkey r = s from hk3]
        exact hrNo l hlL (hcollLR l hlL r hrR this)
  · -- coverage
    intro s
    simp only [List.mem_append]
    constructor
    · rintro ((hsA | hsB) | hsC)
      · obtain ⟨pr, hpr, hk⟩ := List.mem_map.mp hsA
        obtain ⟨h1, -, -⟩ := mem_alignPairs.mp hpr
        exact Or.inl (List.mem_map.mpr ⟨pr.1, h1, hk⟩)
      · obtain ⟨l, hl, hk⟩ := List.mem_map.mp hsB
        exact Or.inl (List.mem_map.mpr ⟨l, (hRem l hl).1, hk⟩)
      · obtain ⟨r, hr, hk⟩ := List.mem_map.mp hsC
        exact Or.inr (List.mem_map.mpr ⟨r, (hAdd r hr).1, hk⟩)
    · rintro (hs | hs)
      · obtain ⟨l, hl, hk⟩ := List.mem_map.mp hs
        by_cases hp : ∃ r ∈ sideNodes S p rrepo nodes, S.akey r = S.akey l
        · obtain ⟨r, hr, hkr⟩ := hp
          refine Or.inl (Or.inl (List.mem_map.mpr
            ⟨(l, r), mem_alignPairs.mpr ⟨hl, hr, hkr⟩, hk⟩))
        · push_neg at hp
          exact Or.inl (Or.inr (List.mem_map.mpr
            ⟨l, toRem l hl fun r hr => hp r hr, hk⟩))
      · obtain ⟨r, hr, hk⟩ := List.mem_map.mp hs
        by_cases hp : ∃ l ∈ sideNodes S p lrepo nodes, S.akey l = S.akey r
        · obtain ⟨l, hl, hkl⟩ := hp
          refine Or.inl (Or.inl (List.mem_map.mpr
            ⟨(l, r), mem_alignPairs.mpr ⟨hl, hr, hkl.symm⟩, ?_⟩))
          show S.mkey l = s
          rw [hmk l r hkl]
          exact hk
        · push_neg at hp
          exact Or.inr (List.mem_map.mpr
            ⟨r, toAdd r hr fun l hl => hp l hl, hk⟩)
  · -- aligned pairs get UNCHANGED or CHANGED
    intro l hl r hr hk
    refine ⟨_, List.mem_append.mpr (Or.inl (List.mem_append.mpr (Or.inl
      (List.mem_map.mpr ⟨(l, r), mem_alignPairs.mpr ⟨hl, hr, hk.symm⟩, rfl⟩)))),
      rfl, ?_⟩
    by_cases hs : S.same l r
    · exact Or.inl (by simp [hs])
    · exact Or.inr (by simp [hs])
  · -- left-only nodes get REMOVED
    intro l hl hno
    exact ⟨_, List.mem_append.mpr (Or.inl (List.mem_append.mpr (Or.inr
      (List.mem_map.mpr ⟨l, toRem l hl hno, rfl⟩)))), rfl, rfl⟩
  · -- right-only nodes get ADDED
    intro r hr hno
    exact ⟨_, List.mem_append.mpr (Or.inr
      (List.mem_map.mpr ⟨r, toAdd r hr hno, rfl⟩)), rfl, rfl⟩

end GraphDb

namespace GraphDb

variable {N K : Type}

theorem methodSpec_mkey_of_akey (m₁ m₂ : MethodNode)
    (h : methodSpec.akey m₁ = methodSpec.akey m₂) :
    methodSpec.mkey m₁ = methodSpec.mkey m₂ := by
  have h1 : m₁.owner_fqn = m₂.owner_fqn := congrArg Prod.fst h
  have h2 : m₁.signature = m₂.signature := congrArg Prod.snd h
  show m₁.owner_fqn ++ "::" ++ m₁.signature
    = m₂.owner_fqn ++ "::" ++ m₂.signature
  rw [h1, h2]

theorem fieldSpec_mkey_of_akey (f₁ f₂ : FieldNode)
    (h : fieldSpec.akey f₁ = fieldSpec.akey f₂) :
    fieldSpec.mkey f₁ = fieldSpec.mkey f₂ := by
  have h1 : f₁.owner_fqn = f₂.owner_fqn := congrArg Prod.fst h
  have h2 : f₁.name = f₂.name := congrArg Prod.snd h
  show f₁.owner_fqn ++ "::" ++ f₁.name = f₂.owner_fqn ++ "::" ++ f₂.name
  rw [h1, h2]

theorem base_filter_kind (sid : String) (k : Kind) (ms : List Marker) :
    (ms.filter fun m => ¬ m.supergraph_id = sid).filter
      (fun m => m.supergraph_id = sid ∧ m.kind = k) = [] := by
  rw [List.filter_eq_nil_iff]
  intro m hm
  have h2 := (List.mem_filter.mp hm).2
  simp only [decide_eq_true_eq] at h2 ⊢
  rintro ⟨h, -⟩
  exact h2 h

theorem partition_filter_self [DecidableEq K] (S : AlignSpec N K)
    [∀ l r : N, Decidable (S.same l r)]
    (p lrepo rrepo sid : String) (k : Kind) (nodes : List N) :
    (partitionMarkers S p lrepo rrepo sid k nodes).filter
        (fun m => m.supergraph_id = sid ∧ m.kind = k)
      = partitionMarkers S p lrepo rrepo sid k nodes := by
  rw [List.filter_eq_self]
  intro m hm
  obtain ⟨h1, h2⟩ := mem_partitionMarkers hm
  simp [h1, h2]

theorem partition_filter_other [DecidableEq K] (S : AlignSpec N K)
    [∀ l r : N, Decidable (S.same l r)]
    (p lrepo rrepo sid : String) (k k' : Kind) (nodes : List N)
    (hk : ¬ k = k') :
    (partitionMarkers S p lrepo rrepo sid k nodes).filter
        (fun m => m.supergraph_id = sid ∧ m.kind = k') = [] := by
  rw [List.filter_eq_nil_iff]
  intro m hm
  obtain ⟨-, h2⟩ := mem_partitionMarkers hm
  simp only [decide_eq_true_eq]
  rintro ⟨-, hkk⟩
  exact hk (h2 ▸ hkk)

end GraphDb

namespace Claims

open GraphDb

/-- C1: for the diff flow over a left graph (project p, repo lrepo) and
a right graph (project p, repo rrepo) with per-side unique identity keys
(and marker keys that collide only when identity keys do — true of the
real key strings, where '::' cannot occur inside fqns, signatures or
names), every Type, Method and Field entity of left ∪ right receives
exactly one status: aligned entities UNCHANGED or CHANGED, left-only
entities REMOVED, right-only entities ADDED; no entity is double-counted
or omitted. -/
theorem c1_partition (p lrepo rrepo sid : String) (db : DB)
    (hTL : ((sideNodes typeSpec p lrepo db.types).map typeSpec.akey).Nodup)
    (hTR : ((sideNodes typeSpec p rrepo db.types).map typeSpec.akey).Nodup)
    (hML : ((sideNodes methodSpec p lrepo db.methods).map methodSpec.akey).Nodup)
    (hMR : ((sideNodes methodSpec p rrepo db.methods).map methodSpec.akey).Nodup)
    (hFL : ((sideNodes fieldSpec p lrepo db.fields).map fieldSpec.akey).Nodup)
    (hFR : ((sideNodes fieldSpec p rrepo db.fields).map fieldSpec.akey).Nodup)
    (hMcoll : ∀ a ∈ sideNodes methodSpec p lrepo db.methods
        ++ sideNodes methodSpec p rrepo db.methods,
      ∀ b ∈ sideNodes methodSpec p lrepo db.methods
        ++ sideNodes methodSpec p rrepo db.methods,
      methodSpec.mkey a = methodSpec.mkey b →
        methodSpec.akey a = methodSpec.akey b)
    (hFcoll : ∀ a ∈ sideNodes fieldSpec p lrepo db.fields
        ++ sideNodes fieldSpec p rrepo db.fields,
      ∀ b ∈ sideNodes fieldSpec p lrepo db.fields
        ++ sideNodes fieldSpec p rrepo db.fields,
      fieldSpec.mkey a = fieldSpec.mkey b →
        fieldSpec.akey a = fieldSpec.akey b) :
    specCompleteClassification typeSpec (sideNodes typeSpec p lrepo db.types)
      (sideNodes typeSpec p rrepo db.types)
      ((run_diff p lrepo rrepo sid db).markers.filter
        fun m => m.supergraph_id = sid ∧ m.kind = Kind.type) ∧
    specCompleteClassification methodSpec
      (sideNodes methodSpec p lrepo db.methods)
      (sideNodes methodSpec p rrepo db.methods)
      ((run_diff p lrepo rrepo sid db).markers.filter
        fun m => m.supergraph_id = sid ∧ m.kind = Kind.method) ∧
    specCompleteClassification fieldSpec (sideNodes fieldSpec p lrepo db.fields)
      (sideNodes fieldSpec p rrepo db.fields)
      ((run_diff p lrepo rrepo sid db).markers.filter
        fun m => m.supergraph_id = sid ∧ m.kind = Kind.field) := by
  have hrun := run_diff_markers_eq p lrepo rrepo sid db hTL hTR hML hMR hFL hFR
    hMcoll hFcoll
  refine ⟨?_, ?_, ?_⟩
  · rw [hrun, List.filter_append, List.filter_append, List.filter_append,
      base_filter_kind, partition_filter_self,
      partition_filter_other methodSpec p lrepo rrepo sid Kind.method Kind.type
        db.methods (by decide),
      partition_filter_other fieldSpec p lrepo rrepo sid Kind.field Kind.type
        db.fields (by decide),
      List.nil_append, List.append_nil, List.append_nil]
    exact partition_spec typeSpec p lrepo rrepo sid Kind.type db.types hTL hTR
      (fun n₁ n₂ h => h) (fun a _ b _ h => h)
  · rw [hrun, List.filter_append, List.filter_append, List.filter_append,
      base_filter_kind, partition_filter_self,
      partition_filter_other typeSpec p lrepo rrepo sid Kind.type Kind.method
        db.types (by decide),
      partition_filter_other fieldSpec p lrepo rrepo sid Kind.field Kind.method
        db.fields (by decide),
      List.nil_append, List.nil_append, List.append_nil]
    exact partition_spec methodSpec p lrepo rrepo sid Kind.method db.methods
      hML hMR methodSpec_mkey_of_akey hMcoll
  · rw [hrun, List.filter_append, List.filter_append, List.filter_append,
      base_filter_kind, partition_filter_self,
      partition_filter_other typeSpec p lrepo rrepo sid Kind.type Kind.field
        db.types (by decide),
      partition_filter_other methodSpec p lrepo rrepo sid Kind.method Kind.field
        db.methods (by decide),
      List.nil_append, List.nil_append, List.nil_append]
    exact partition_spec fieldSpec p lrepo rrepo sid Kind.field db.fields
      hFL hFR fieldSpec_mkey_of_akey hFcoll

/-- C1 witness: a concrete pair of graphs (left: types A changed, B
removed, method A::m() changed; right: types A, C added, field A::f
added). -/
theorem c1_partition_witness :
    specCompleteClassification typeSpec
      (sideNodes typeSpec "p" "l" Inputs.c1Db.types)
      (sideNodes typeSpec "p" "r" Inputs.c1Db.types)
      ((run_diff "p" "l" "r" "sg" Inputs.c1Db).markers.filter
        fun m => m.supergraph_id = "sg" ∧ m.kind = Kind.type) ∧
    specCompleteClassification methodSpec
      (sideNodes methodSpec "p" "l" Inputs.c1Db.methods)
      (sideNodes methodSpec "p" "r" Inputs.c1Db.methods)
      ((run_diff "p" "l" "r" "sg" Inputs.c1Db).markers.filter
        fun m => m.supergraph_id = "sg" ∧ m.kind = Kind.method) ∧
    specCompleteClassification fieldSpec
      (sideNodes fieldSpec "p" "l" Inputs.c1Db.fields)
      (sideNodes fieldSpec "p" "r" Inputs.c1Db.fields)
      ((run_diff "p" "l" "r" "sg" Inputs.c1Db).markers.filter
        fun m => m.supergraph_id = "sg" ∧ m.kind = Kind.field) :=
  c1_partition "p" "l" "r" "sg" Inputs.c1Db (by decide) (by decide) (by decide)
    (by decide) (by decide) (by decide) (by decide) (by decide)

end Claims
